import Mathlib

/-!
# Verification of the AIHealthHub local persistence core

This file gives a shallow embedding, in Lean 4, of the local
persistence + encryption + rate-limiting subsystem of the AIHealthHub
repository (`src/utils/encryption.ts`, `src/utils/rateLimiter.ts`,
`src/services/storageService.ts`) and proves, or refutes, the testable
properties stated in the repository's specification.

Modelling conventions:

* JavaScript runtime values are modelled by the inductive type `JVal`:
  `null`, booleans, numbers (as `Int`; the fractional part of JS numbers
  plays no role in this subsystem), BigInts (which `JSON.stringify`
  refuses to serialize), strings, `Date` objects (epoch milliseconds),
  arrays and plain objects.
* JavaScript strings that flow through storage are modelled by `JsString`:
  a string is either the canonical JSON serialization of a value
  (`JsString.json v`), a CryptoJS ciphertext (`JsString.cipher key payload`),
  or some other raw text that is not valid JSON (`JsString.raw s`).
* Exceptions are modelled with `Except JsError`; a JS function that cannot
  throw is modelled as a total function.
* The external libraries (the `JSON` builtin, CryptoJS AES,
  `Date#toISOString` / `new Date(string)`) are not repository code; they
  are modelled by their documented contracts, with concrete executable
  definitions, and every such model is marked in its doc comment.
-/

/-- Kinds of JavaScript exceptions that can arise in the modelled code. -/

inductive JsError where
  /-- `SyntaxError` thrown by `JSON.parse` on malformed input. -/
  | parseError
  /-- `TypeError` (e.g. `.forEach`/`.map` on a non-array, `JSON.stringify`
  on a BigInt, property access on `null`). -/
  | typeError
  /-- An error thrown inside CryptoJS (e.g. malformed UTF-8 after
  decrypting with a wrong key or non-ciphertext input). -/
  | cryptoError
deriving DecidableEq, Repr

/-- JavaScript runtime values relevant to this subsystem.

Numbers are modelled as integers: all numbers handled by the persistence
core (timestamps, ages, scores) are integral, and no claim depends on
float behaviour.  `bigint` models values on which `JSON.stringify`
throws a `TypeError`.  `date` models a JS `Date` holding a nonnegative
epoch-millisecond value (all dates in this code come from `Date.now()`
or from reconstituting such values). -/

inductive JVal where
  | null
  | bool (b : Bool)
  | num (n : Int)
  | bigint (n : Int)
  | str (s : String)
  | date (ms : Nat)
  | arr (elems : List JVal)
  | obj (fields : List (String × JVal))
deriving Repr

/- ### A concrete model of `Date#toISOString` / `new Date(string)`

`JSON.stringify` serializes a `Date` via `toJSON`, i.e. as its ISO-8601
string; `new Date(isoString)` recovers the original instant.  We model
this pair by a concrete injective rendering of the epoch milliseconds
(prefixed so that it is recognizable), together with a verified inverse.
The exact textual format is irrelevant to every claim; what matters is
that rendering is injective and parsing is its computable inverse. -/

/-- The character for a single decimal digit `d < 10`. -/

def digitChar (d : Nat) : Char := Char.ofNat (48 + d)

/-- Numeric value of a decimal digit character. -/

def digitVal (c : Char) : Nat := c.toNat - 48

/-- Little-endian decimal digits of `n` (`0` has no digits). -/

def natToRevDigits : Nat → List Char
  | 0 => []
  | n + 1 => digitChar ((n + 1) % 10) :: natToRevDigits ((n + 1) / 10)
decreasing_by exact Nat.div_lt_self (Nat.succ_pos n) (by decide)

/-- Read back a little-endian digit list. -/

def ofRevDigits : List Char → Nat
  | [] => 0
  | c :: cs => digitVal c + 10 * ofRevDigits cs

/-- Decimal digit string of `n` (big-endian), nonempty. -/

def decimalDigits (n : Nat) : List Char :=
  if n = 0 then ['0'] else (natToRevDigits n).reverse

/-- Model of `Date#toISOString` composed with `JSON.stringify`'s date
handling: a recognizable injective rendering of the epoch milliseconds. -/

def isoOfDate (ms : Nat) : String :=
  ⟨'I' :: 'S' :: 'O' :: ':' :: decimalDigits ms⟩

/-- Parse a digit list; `none` unless nonempty and all digits. -/

def parseDecimal (cs : List Char) : Option Nat :=
  if cs = [] then none
  else if cs.all Char.isDigit then some (ofRevDigits cs.reverse) else none

/-- Model of `new Date(s)` succeeding: recover the epoch milliseconds from
a rendered date string; `none` models `Invalid Date`. -/

def isoParse (s : String) : Option Nat :=
  match s.data with
  | 'I' :: 'S' :: 'O' :: ':' :: rest => parseDecimal rest
  | _ => none

/- ### The JSON image of a runtime value

`JSON.stringify` maps a runtime value to the value denoted by the
produced JSON text: `Date`s become their ISO strings, and a `BigInt`
anywhere makes it throw a `TypeError`. -/

mutual

/-- `true` iff the value contains no `bigint`, i.e. `JSON.stringify`
succeeds on it. -/
def serializableB : JVal → Bool
  | .null | .bool _ | .num _ | .str _ | .date _ => true
  | .bigint _ => false
  | .arr xs => serializableListB xs
  | .obj fs => serializableFieldsB fs

/-- `serializableB` on a list of array elements. -/
def serializableListB : List JVal → Bool
  | [] => true
  | x :: xs => serializableB x && serializableListB xs

/-- `serializableB` on object fields. -/
def serializableFieldsB : List (String × JVal) → Bool
  | [] => true
  | (_, v) :: fs => serializableB v && serializableFieldsB fs

end

mutual

/-- `true` iff the value contains no `Date` (so its JSON image is itself). -/
def dateFreeB : JVal → Bool
  | .null | .bool _ | .num _ | .str _ | .bigint _ => true
  | .date _ => false
  | .arr xs => dateFreeListB xs
  | .obj fs => dateFreeFieldsB fs

/-- `dateFreeB` on a list of array elements. -/
def dateFreeListB : List JVal → Bool
  | [] => true
  | x :: xs => dateFreeB x && dateFreeListB xs

/-- `dateFreeB` on object fields. -/
def dateFreeFieldsB : List (String × JVal) → Bool
  | [] => true
  | (_, v) :: fs => dateFreeB v && dateFreeFieldsB fs

end

mutual

/-- `true` iff no string inside the value is itself parseable as a
rendered date (so date reconstitution cannot capture an ordinary
string). -/
def isoCleanB : JVal → Bool
  | .null | .bool _ | .num _ | .bigint _ | .date _ => true
  | .str s => (isoParse s).isNone
  | .arr xs => isoCleanListB xs
  | .obj fs => isoCleanFieldsB fs

/-- `isoCleanB` on a list of array elements. -/
def isoCleanListB : List JVal → Bool
  | [] => true
  | x :: xs => isoCleanB x && isoCleanListB xs

/-- `isoCleanB` on object fields. -/
def isoCleanFieldsB : List (String × JVal) → Bool
  | [] => true
  | (_, v) :: fs => isoCleanB v && isoCleanFieldsB fs

end

mutual

/-- The value denoted by the JSON text `JSON.stringify` produces
(defined on every value; on a `bigint` — where the real `JSON.stringify`
throws — it is never used, see `stringifyE`). -/
def jsonImage : JVal → JVal
  | .null => .null
  | .bool b => .bool b
  | .num n => .num n
  | .bigint n => .bigint n
  | .str s => .str s
  | .date ms => .str (isoOfDate ms)
  | .arr xs => .arr (jsonImageList xs)
  | .obj fs => .obj (jsonImageFields fs)

/-- `jsonImage` on a list of array elements. -/
def jsonImageList : List JVal → List JVal
  | [] => []
  | x :: xs => jsonImage x :: jsonImageList xs

/-- `jsonImage` on object fields. -/
def jsonImageFields : List (String × JVal) → List (String × JVal)
  | [] => []
  | (k, v) :: fs => (k, jsonImage v) :: jsonImageFields fs

end

mutual

/-- Deep date reconstitution: replace every string that parses as a
rendered date by the corresponding `Date`.  This formalizes the spec's
"deep equality after timestamp reconstitution". -/
def reviveDates : JVal → JVal
  | .null => .null
  | .bool b => .bool b
  | .num n => .num n
  | .bigint n => .bigint n
  | .str s => match isoParse s with
    | some ms => .date ms
    | none => .str s
  | .date ms => .date ms
  | .arr xs => .arr (reviveDatesList xs)
  | .obj fs => .obj (reviveDatesFields fs)

/-- `reviveDates` on a list of array elements. -/
def reviveDatesList : List JVal → List JVal
  | [] => []
  | x :: xs => reviveDates x :: reviveDatesList xs

/-- `reviveDates` on object fields. -/
def reviveDatesFields : List (String × JVal) → List (String × JVal)
  | [] => []
  | (k, v) :: fs => (k, reviveDates v) :: reviveDatesFields fs

end

/- ### Wire strings: the strings that flow through localStorage

A JavaScript string is classified by what it denotes to the two decoders
the code applies to it: `JSON.parse` and `CryptoJS.AES.decrypt`. -/

/-- Model of a JS string as seen by this subsystem:
* `json v` — the canonical JSON serialization of the (date- and
  bigint-free) value `v`; `JSON.parse` succeeds on it and yields `v`;
* `cipher key payload` — a CryptoJS AES ciphertext of the string
  `payload` under `key` (never valid JSON: CryptoJS ciphertexts are
  `"U2FsdGVk..."` base64 text);
* `raw s` — any other text, valid neither as JSON nor as ciphertext
  (`raw ""` is the empty string). -/

inductive JsString where
  | json (v : JVal)
  | cipher (key : String) (payload : JsString)
  | raw (s : String)
deriving Repr

/-- Model of JS string falsiness (`!data`): only the empty string is
falsy; JSON texts and ciphertexts are never empty. -/

def JsString.isFalsy : JsString → Bool
  | .raw "" => true
  | _ => false

/-- Model of `JSON.parse`: succeeds exactly on canonical JSON texts,
otherwise throws a `SyntaxError`. -/

def jsonParseE : JsString → Except JsError JVal
  | .json v => .ok v
  | .cipher _ _ => .error .parseError
  | .raw _ => .error .parseError

/-- Model of `JSON.stringify`: throws a `TypeError` on a value containing
a BigInt, otherwise produces the canonical JSON text of the value's
JSON image (dates rendered as their ISO strings). -/

def stringifyE (v : JVal) : Except JsError JsString :=
  if serializableB v then .ok (.json (jsonImage v)) else .error .typeError

/-- Model of `CryptoJS.AES.encrypt(plain, key).toString()`: a keyed,
reversible opaque encoding of the plaintext.  Encrypting a string never
throws. -/

def aesEncrypt (plain : JsString) (key : String) : JsString :=
  .cipher key plain

/-- Model of `CryptoJS.AES.decrypt(data, key)` followed by
`.toString(CryptoJS.enc.Utf8)`:
* on a ciphertext with the matching key, the original plaintext;
* on a ciphertext with a different key, the empty string (garbled
  keystream that fails to look like UTF-8);
* on anything that is not a CryptoJS ciphertext, an exception
  (malformed-format / malformed UTF-8).
The repository code treats the last two outcomes identically (fall back
to plain JSON parsing), so the split between them is immaterial. -/

def aesDecrypt (data : JsString) (key : String) : Except JsError JsString :=
  match data with
  | .cipher key' payload =>
    if key' = key then .ok payload else .ok (.raw "")
  | _ => .error .cryptoError

/- ### The encryption codec (`src/utils/encryption.ts`) -/

/-- Default encryption key – `src/utils/encryption.ts` line 137. -/

def DEFAULT_KEY : String := "aihealth_default_key_v1"

/-- Embedding of `encryptData` (`src/utils/encryption.ts` lines 145-155):
```js
try {
    const jsonString = JSON.stringify(data);
    const encrypted = CryptoJS.AES.encrypt(jsonString, key).toString();
    return encrypted;
} catch (error) {
    // Fallback to plain JSON if encryption fails
    return JSON.stringify(data);
}
```
Note the catch block serializes `data` again, so a failure of
`JSON.stringify` itself is rethrown rather than recovered. -/

def encryptData (data : JVal) (key : String) :
    Except JsError JsString :=
  match stringifyE data with
  | .ok jsonString => .ok (aesEncrypt jsonString key)
  | .error _ => stringifyE data

/-- Embedding of `decryptData` (`src/utils/encryption.ts` lines 163-185):
```js
try {
    const bytes = CryptoJS.AES.decrypt(encryptedData, key);
    const decryptedString = bytes.toString(CryptoJS.enc.Utf8);
    if (!decryptedString) {
        return JSON.parse(encryptedData);
    }
    return JSON.parse(decryptedString);
} catch (error) {
    try {
        return JSON.parse(encryptedData);
    } catch {
        return null;
    }
}
```
The result type `Option JVal` reflects that the function never throws:
`none` is the returned `null`. -/

def decryptData (encryptedData : JsString) (key : String) :
    Option JVal :=
  match
    (match aesDecrypt encryptedData key with
     | .ok decryptedString =>
       if decryptedString.isFalsy then jsonParseE encryptedData
       else jsonParseE decryptedString
     | .error e => .error e : Except JsError JVal) with
  | .ok v => some v
  | .error _ =>
    match jsonParseE encryptedData with
    | .ok v => some v
    | .error _ => none

/- ### The rate limiter (`src/utils/rateLimiter.ts`)

The limiter's mutable module state (`requestHistory : Map<string,
number[]>`) is embedded in state-passing style: every source function
takes the map (as an association list) and the current `Date.now()`
instant, and returns its result together with the map it leaves behind. -/

/-- One `{ maxRequests, windowMs }` policy entry. -/

structure RateConfig where
  maxRequests : Nat
  windowMs : Int
deriving DecidableEq, Repr

/-- `RATE_LIMITS` (`src/utils/rateLimiter.ts` lines 371-379). -/

def RATE_LIMITS : List (String × RateConfig) :=
  [("drug-analysis", ⟨10, 60000⟩),
   ("symptom-analysis", ⟨5, 60000⟩),
   ("diet", ⟨5, 60000⟩),
   ("diet-plan", ⟨3, 60000⟩),
   ("second-opinion", ⟨3, 60000⟩),
   ("chat", ⟨20, 60000⟩),
   ("default", ⟨30, 60000⟩)]

/-- `RATE_LIMITS[endpoint] || RATE_LIMITS.default`. -/

def configFor (endpoint : String) : RateConfig :=
  (RATE_LIMITS.lookup endpoint).getD ⟨30, 60000⟩

/-- The in-memory request history: per-endpoint timestamp lists. -/

abbrev RequestHistory := List (String × List Int)

/-- `requestHistory.get(endpoint) || []`. -/

def hGet (hist : RequestHistory) (endpoint : String) : List Int :=
  (hist.lookup endpoint).getD []

/-- `requestHistory.set(endpoint, ts)`. -/

def hSet (hist : RequestHistory) (endpoint : String) (ts : List Int) :
    RequestHistory :=
  (endpoint, ts) :: hist.filter (fun p => p.1 ≠ endpoint)

/-- The payload of a thrown `RateLimitError`; the human-readable message
is derived from `remainingTime` and carries no further information. -/

structure RateLimitError where
  remainingTime : Int
deriving DecidableEq, Repr

/-- `Math.ceil(a / b)` for integers with `b > 0`. -/

def jsCeilDiv (a b : Int) : Int := -((-a) / b)

/-- Embedding of `checkRateLimit` (`src/utils/rateLimiter.ts` lines
400-424).  `history[0]` on the (unreachable, since every policy has
`maxRequests ≥ 1`) empty list is modelled as `head?.getD 0`. -/

def checkRateLimit (hist : RequestHistory) (endpoint : String) (now : Int) :
    Except RateLimitError RequestHistory :=
  let config := configFor endpoint
  let windowStart := now - config.windowMs
  let history := hGet hist endpoint
  let history := history.filter (fun timestamp => windowStart < timestamp)
  if config.maxRequests ≤ history.length then
    let oldestRequest := history.head?.getD 0
    let remainingTime := jsCeilDiv (oldestRequest + config.windowMs - now) 1000
    .error ⟨remainingTime⟩
  else
    .ok (hSet hist endpoint (history ++ [now]))

/-- Embedding of `getRemainingRequests` (lines 431-440); read-only, so it
returns the history unchanged. -/

def getRemainingRequests (hist : RequestHistory) (endpoint : String)
    (now : Int) : Int × RequestHistory :=
  let config := configFor endpoint
  let windowStart := now - config.windowMs
  let history := hGet hist endpoint
  let recentRequests := history.filter (fun timestamp => windowStart < timestamp)
  (max 0 ((config.maxRequests : Int) - recentRequests.length), hist)

/-- Embedding of `getTimeUntilReset` (lines 447-460); read-only, so it
returns the history unchanged. -/

def getTimeUntilReset (hist : RequestHistory) (endpoint : String)
    (now : Int) : Int × RequestHistory :=
  let config := configFor endpoint
  let windowStart := now - config.windowMs
  let history := hGet hist endpoint
  let recentRequests := history.filter (fun timestamp => windowStart < timestamp)
  if config.maxRequests ≤ recentRequests.length ∧ 0 < recentRequests.length then
    (recentRequests.head?.getD 0 + config.windowMs - now, hist)
  else
    (0, hist)

/- ### Claims C3, C9, C10: rate-limiter behaviour -/

/-- The in-window request timestamps for an endpoint at instant `now` —
exactly the list the source computes by
`history.filter(timestamp => timestamp > windowStart)`. -/

def inWindow (hist : RequestHistory) (endpoint : String) (now : Int) : List Int :=
  (hGet hist endpoint).filter
    (fun timestamp => now - (configFor endpoint).windowMs < timestamp)

/-- Iterated admission at the given instants (`checkRateLimit` in
sequence, stopping at the first rejection). -/

def admitTimes (endpoint : String) (times : List Int) (hist : RequestHistory) :
    Except RateLimitError RequestHistory :=
  times.foldlM (fun h t => checkRateLimit h endpoint t) hist

/- ### The persistent record store (`src/services/storageService.ts`)

`localStorage` is embedded as an association list from keys to wire
strings, threaded through every operation.  The encryption flag
(`isEncryptionEnabled()`, a stored scalar consulted at each call) is
modelled as an explicit boolean parameter `enc`. -/

/-- The browser's localStorage content for this origin. -/

abbrev Store := List (String × JsString)

/-- `localStorage.getItem` (`null` ↦ `none`). -/

def storeGet (st : Store) (k : String) : Option JsString := st.lookup k

/-- `localStorage.setItem`. -/

def storeSet (st : Store) (k : String) (v : JsString) : Store :=
  (k, v) :: st.filter (fun p => p.1 ≠ k)

/-- `STORAGE_KEYS.HEALTH_PROFILE`. -/

def HEALTH_PROFILE_KEY : String := "aihealth_profile"

/-- `STORAGE_KEYS.CONSULTATIONS`. -/

def CONSULTATIONS_KEY : String := "aihealth_consultations"

/-- `STORAGE_KEYS.LANGUAGE`. -/

def LANGUAGE_KEY : String := "aihealth_language"

/-- `STORAGE_KEYS.DRUG_HISTORY`. -/

def DRUG_HISTORY_KEY : String := "aihealth_drug_history"

/-- The per-module chat key `` `aihealth_chat_${module}` ``. -/

def chatKey (module : String) : String := "aihealth_chat_" ++ module

/-- JS falsiness of a value (`null`, `false`, `0`, `""`). -/

def jsFalsy : JVal → Bool
  | .null => true
  | .bool false => true
  | .num 0 => true
  | .str "" => true
  | _ => false

/-- `x || d` for a possibly-`null` decode result (`decryptData(...) || []`). -/

def jsOrNull (o : Option JVal) (d : JVal) : JVal :=
  match o with
  | none => d
  | some v => if jsFalsy v then d else v

/-- Property read `v[k]` where `undefined` is `none`; on JS `null` the
access itself throws a `TypeError`.  Primitives and arrays have no own
properties named by the keys this code uses. -/

def jsGetProp (v : JVal) (k : String) : Except JsError (Option JVal) :=
  match v with
  | .null => .error .typeError
  | .obj fs => .ok (fs.lookup k)
  | _ => .ok none

/-- Truthiness of a possibly-`undefined` property value. -/

def jsTruthyOpt (o : Option JVal) : Bool :=
  match o with
  | none => false
  | some v => !jsFalsy v

/-- Property read on a value known not to be `null`/`undefined`
(`c.timestamp` inside the reconstitution map). -/

def objGet (v : JVal) (k : String) : Option JVal :=
  match v with
  | .obj fs => fs.lookup k
  | _ => none

/-- Spread-override `{...c, k: v}`: replace the property in place when
present, else append it.  Spreading a primitive contributes no own
enumerable properties (strings, which would contribute index properties,
never reach this in the modelled code). -/

def objSpreadSet (c : JVal) (k : String) (v : JVal) : JVal :=
  match c with
  | .obj fs =>
    if (fs.map Prod.fst).contains k then
      .obj (fs.map (fun kv => if kv.1 = k then (k, v) else kv))
    else
      .obj (fs ++ [(k, v)])
  | _ => .obj [(k, v)]

/-- Model of `new Date(x)`: copies a `Date`, parses a rendered date
string, accepts nonnegative epoch milliseconds; everything else gives an
`Invalid Date`, modelled coarsely as `null` (unreachable under the
well-formedness hypotheses of the claims). -/

def jsNewDate (o : Option JVal) : JVal :=
  match o with
  | some (.date ms) => .date ms
  | some (.str s) =>
    match isoParse s with
    | some ms => .date ms
    | none => .null
  | some (.num n) => if 0 ≤ n then .date n.toNat else .null
  | _ => .null

/-- `{...c, timestamp: new Date(c.timestamp)}`; on a `null` element the
property access throws. -/

def reconstituteTimestampE (c : JVal) : Except JsError JVal :=
  match c with
  | .null => .error .typeError
  | c => .ok (objSpreadSet c "timestamp" (jsNewDate (objGet c "timestamp")))

/-- `xs.map(f)` for a fallible `f`, stopping at the first exception. -/

def jsMapListE (f : JVal → Except JsError JVal) :
    List JVal → Except JsError (List JVal)
  | [] => .ok []
  | x :: xs =>
    match f x with
    | .error e => .error e
    | .ok y =>
      match jsMapListE f xs with
      | .error e => .error e
      | .ok ys => .ok (y :: ys)

/-- `v.map(f)`: a `TypeError` unless `v` is an array. -/

def jsMapE (v : JVal) (f : JVal → Except JsError JVal) :
    Except JsError (List JVal) :=
  match v with
  | .arr xs => jsMapListE f xs
  | _ => .error .typeError

/-- The body of the `try` block of `getConsultations`
(`src/services/storageService.ts` lines 86-98): decode the blob
(`decryptData(data) || []` when encrypted, `JSON.parse(data)` otherwise),
then `map` the timestamp reconstitution over it. -/

def getConsultationsE (enc : Bool) (data : JsString) :
    Except JsError (List JVal) :=
  match (if enc then .ok (jsOrNull (decryptData data DEFAULT_KEY) (.arr []))
         else jsonParseE data : Except JsError JVal) with
  | .error e => .error e
  | .ok consultations => jsMapE consultations reconstituteTimestampE

/-- Embedding of `getConsultations` (lines 82-103): absent or empty blob
gives `[]`; any exception in the body is caught and gives `[]`. -/

def getConsultations (enc : Bool) (st : Store) : List JVal :=
  match storeGet st CONSULTATIONS_KEY with
  | none => []
  | some data =>
    if data.isFalsy then []
    else
      match getConsultationsE enc data with
      | .ok consultations => consultations
      | .error _ => []

/-- Embedding of `saveConsultation` (lines 68-80): read the current list,
prepend, trim to 50, re-encode under the current encryption mode, store. -/

def saveConsultation (enc : Bool) (st : Store) (consultation : JVal) :
    Except JsError Store :=
  let consultations := getConsultations enc st
  let trimmed := (consultation :: consultations).take 50
  if enc then
    match encryptData (.arr trimmed) DEFAULT_KEY with
    | .ok encrypted => .ok (storeSet st CONSULTATIONS_KEY encrypted)
    | .error e => .error e
  else
    match stringifyE (.arr trimmed) with
    | .ok s => .ok (storeSet st CONSULTATIONS_KEY s)
    | .error e => .error e

/-- The body of the `try` block of `getChatHistory` (lines 167-179);
textually identical to the consultations body. -/

def getChatHistoryE (enc : Bool) (data : JsString) :
    Except JsError (List JVal) :=
  match (if enc then .ok (jsOrNull (decryptData data DEFAULT_KEY) (.arr []))
         else jsonParseE data : Except JsError JVal) with
  | .error e => .error e
  | .ok messages => jsMapE messages reconstituteTimestampE

/-- Embedding of `getChatHistory` (lines 162-184). -/

def getChatHistory (enc : Bool) (st : Store) (module : String) : List JVal :=
  match storeGet st (chatKey module) with
  | none => []
  | some data =>
    if data.isFalsy then []
    else
      match getChatHistoryE enc data with
      | .ok messages => messages
      | .error _ => []

/-- Embedding of `saveChatHistory` (lines 149-160): keep the last 50
messages (`messages.slice(-50)`), re-encode, store under the module key. -/

def saveChatHistory (enc : Bool) (st : Store) (module : String)
    (messages : List JVal) : Except JsError Store :=
  let trimmed := messages.drop (messages.length - 50)
  if enc then
    match encryptData (.arr trimmed) DEFAULT_KEY with
    | .ok encrypted => .ok (storeSet st (chatKey module) encrypted)
    | .error e => .error e
  else
    match stringifyE (.arr trimmed) with
    | .ok s => .ok (storeSet st (chatKey module) s)
    | .error e => .error e

/-- Embedding of `getDrugHistory` (lines 131-134):
`return data ? JSON.parse(data) : []` — note: no `try`/`catch`, so a
malformed blob makes `JSON.parse` throw to the caller.  The TS
declaration promises `string[]` but nothing validates the parsed shape,
hence the result is a bare value. -/

def getDrugHistory (st : Store) : Except JsError JVal :=
  match storeGet st DRUG_HISTORY_KEY with
  | none => .ok (.arr [])
  | some data =>
    if data.isFalsy then .ok (.arr [])
    else jsonParseE data

/-- Model of `String.prototype.toLowerCase` (character-wise lowering;
agrees with the JS builtin on the ASCII data this code handles), defined
so that it evaluates inside the kernel. -/

def String.jsToLower (s : String) : String := ⟨s.data.map Char.toLower⟩

/-- Elements of the parsed history as strings; a non-string element makes
`d.toLowerCase()` throw. -/

def asStringList : List JVal → Except JsError (List String)
  | [] => .ok []
  | .str s :: rest =>
    match asStringList rest with
    | .ok l => .ok (s :: l)
    | .error e => .error e
  | _ :: _ => .error .typeError

/-- Embedding of `saveDrugSearch` (lines 121-129): drop case-insensitive
duplicates of the query, prepend it, trim to 20, store as plain JSON. -/

def saveDrugSearch (st : Store) (drugName : String) : Except JsError Store :=
  match getDrugHistory st with
  | .error e => .error e
  | .ok historyV =>
    match historyV with
    | .arr elems =>
      match asStringList elems with
      | .error e => .error e
      | .ok history =>
        let filtered := history.filter
          (fun d => d.jsToLower ≠ drugName.jsToLower)
        let trimmed := (drugName :: filtered).take 20
        match stringifyE (.arr (trimmed.map JVal.str)) with
        | .ok s => .ok (storeSet st DRUG_HISTORY_KEY s)
        | .error e => .error e
    | _ => .error .typeError

/-- Embedding of `saveHealthProfile` (lines 30-37). -/

def saveHealthProfile (enc : Bool) (st : Store) (profile : JVal) :
    Except JsError Store :=
  if enc then
    match encryptData profile DEFAULT_KEY with
    | .ok encrypted => .ok (storeSet st HEALTH_PROFILE_KEY encrypted)
    | .error e => .error e
  else
    match stringifyE profile with
    | .ok s => .ok (storeSet st HEALTH_PROFILE_KEY s)
    | .error e => .error e

/-- Model of the implicit `String(x)` coercion `localStorage.setItem`
applies to its value; only the string branch is exercised by the claims,
the composite branches are coarse. -/

def jsCoerceToString : JVal → String
  | .str s => s
  | .null => "null"
  | .bool b => cond b "true" "false"
  | .num n => toString n
  | .bigint n => toString n
  | .date ms => isoOfDate ms
  | .arr _ => ""
  | .obj _ => "[object Object]"

/-- Embedding of `saveLanguage` (lines 111-113): the raw string is stored
unencrypted. -/

def saveLanguage (st : Store) (lang : JVal) : Store :=
  storeSet st LANGUAGE_KEY (.raw (jsCoerceToString lang))

/-- `drugHistory.forEach((drug: string) => saveDrugSearch(drug))` element
step: a non-string element (violating the TS type) makes
`drug.toLowerCase()` inside `saveDrugSearch` throw. -/

def saveDrugSearchJS (st : Store) (v : JVal) : Except JsError Store :=
  match v with
  | .str q => saveDrugSearch st q
  | _ => .error .typeError

/-- `xs.forEach(save)` over the store: writes performed before an
exception persist (localStorage mutations are not rolled back). -/

def forEachSave (f : Store → JVal → Except JsError Store) :
    List JVal → Store → Option JsError × Store
  | [], st => (none, st)
  | x :: xs, st =>
    match f st x with
    | .ok st' => forEachSave f xs st'
    | .error e => (some e, st)

/-- `v.forEach(save)`: a `TypeError` unless `v` is an array. -/

def jsForEach (v : JVal) (f : Store → JVal → Except JsError Store)
    (st : Store) : Option JsError × Store :=
  match v with
  | .arr xs => forEachSave f xs st
  | _ => (some .typeError, st)

/-- Embedding of `importData` (`src/services/storageService.ts` lines
228-254):
```js
try {
    const data = JSON.parse(jsonString);
    if (data.healthProfile) { saveHealthProfile(data.healthProfile); }
    if (data.consultations) { data.consultations.forEach(c => saveConsultation(c)); }
    if (data.drugHistory) { data.drugHistory.forEach(drug => saveDrugSearch(drug)); }
    if (data.language) { saveLanguage(data.language); }
    return true;
} catch (error) { return false; }
```
The `catch` returns `false` but does not undo localStorage writes already
performed, so the returned store reflects every write that happened
before the exception. -/

def importData (enc : Bool) (st0 : Store) (jsonString : JsString) :
    Bool × Store :=
  match jsonParseE jsonString with
  | .error _ => (false, st0)
  | .ok data =>
    match (match jsGetProp data "healthProfile" with
           | .error e => (some e, st0)
           | .ok hp =>
             if jsTruthyOpt hp then
               match saveHealthProfile enc st0 (hp.getD .null) with
               | .ok st' => (none, st')
               | .error e => (some e, st0)
             else (none, st0) : Option JsError × Store) with
    | (some _, st) => (false, st)
    | (none, st1) =>
      match (match jsGetProp data "consultations" with
             | .error e => (some e, st1)
             | .ok cs =>
               if jsTruthyOpt cs then
                 jsForEach (cs.getD .null) (saveConsultation enc) st1
               else (none, st1) : Option JsError × Store) with
      | (some _, st) => (false, st)
      | (none, st2) =>
        match (match jsGetProp data "drugHistory" with
               | .error e => (some e, st2)
               | .ok dh =>
                 if jsTruthyOpt dh then
                   jsForEach (dh.getD .null) saveDrugSearchJS st2
                 else (none, st2) : Option JsError × Store) with
        | (some _, st) => (false, st)
        | (none, st3) =>
          match (match jsGetProp data "language" with
                 | .error e => (some e, st3)
                 | .ok lang =>
                   if jsTruthyOpt lang then (none, saveLanguage st3 (lang.getD .null))
                   else (none, st3) : Option JsError × Store) with
          | (some _, st) => (false, st)
          | (none, st4) => (true, st4)

/- ### Well-formed stored records

A record survives the store's encode/decode pipeline exactly when it is
a JSON object with pairwise-distinct keys whose `timestamp` property is
a `Date` and whose other properties are serializable and date-free (the
read path reconstitutes only the `timestamp` field). -/

/-- No duplicate keys among the fields. -/

def nodupKeys : List (String × JVal) → Bool
  | [] => true
  | (k, _) :: fs => !((fs.map Prod.fst).contains k) && nodupKeys fs

/-- A field the store round-trips: the `timestamp` property holds a
`Date`; any other property is date-free and serializable. -/

def goodFieldB (kv : String × JVal) : Bool :=
  if kv.1 == "timestamp" then
    match kv.2 with
    | .date _ => true
    | _ => false
  else dateFreeB kv.2 && serializableB kv.2

/-- A timestamped record as the storage layer persists them. -/

def goodRecord : JVal → Bool
  | .obj fs =>
    nodupKeys fs && (fs.map Prod.fst).contains "timestamp" && fs.all goodFieldB
  | _ => false

/-- The wire blob each collection save produces for the trimmed list `l`
under encryption mode `enc`. -/

def collectionBlob (enc : Bool) (l : List JVal) : JsString :=
  if enc then .cipher DEFAULT_KEY (.json (.arr (jsonImageList l)))
  else .json (.arr (jsonImageList l))

/-- `N` successive `saveConsultation` calls. -/

def saveConsultations (enc : Bool) (cs : List JVal) (st : Store) :
    Except JsError Store :=
  cs.foldlM (fun s c => saveConsultation enc s c) st

/-- `N` successive `saveDrugSearch` calls. -/

def saveDrugSearches (qs : List String) (st : Store) : Except JsError Store :=
  qs.foldlM (fun s q => saveDrugSearch s q) st

theorem digitVal_digitChar {d : Nat} (h : d < 10) : digitVal (digitChar d) = d := by
  interval_cases d <;> decide

theorem digitChar_isDigit {d : Nat} (h : d < 10) : (digitChar d).isDigit = true := by
  interval_cases d <;> decide

theorem ofRevDigits_natToRevDigits (n : Nat) : ofRevDigits (natToRevDigits n) = n := by
  induction n using Nat.strong_induction_on with
  | _ n ih =>
    match n with
    | 0 => rw [natToRevDigits]; rfl
    | n + 1 =>
      rw [natToRevDigits]
      have hdiv : (n + 1) / 10 < n + 1 := Nat.div_lt_self (Nat.succ_pos n) (by decide)
      simp only [ofRevDigits, ih _ hdiv, digitVal_digitChar (Nat.mod_lt _ (by decide))]
      omega

theorem natToRevDigits_all_digits (n : Nat) :
    ∀ c ∈ natToRevDigits n, c.isDigit = true := by
  induction n using Nat.strong_induction_on with
  | _ n ih =>
    match n with
    | 0 => intro c hc; simp [natToRevDigits] at hc
    | n + 1 =>
      intro c hc
      rw [natToRevDigits] at hc
      rcases List.mem_cons.mp hc with h | h
      · subst h; exact digitChar_isDigit (Nat.mod_lt _ (by decide))
      · exact ih _ (Nat.div_lt_self (Nat.succ_pos n) (by decide)) c h

theorem decimalDigits_ne_nil (n : Nat) : decimalDigits n ≠ [] := by
  unfold decimalDigits
  split
  · simp
  · intro h
    rcases List.reverse_eq_nil_iff.mp h with h'
    rename_i hn
    match hn' : n, hn with
    | m + 1, _ => rw [natToRevDigits] at h'; cases h'

theorem decimalDigits_all_digits (n : Nat) :
    (decimalDigits n).all Char.isDigit = true := by
  unfold decimalDigits
  split
  · decide
  · rw [List.all_eq_true]
    intro c hc
    exact natToRevDigits_all_digits n c (List.mem_reverse.mp hc)

theorem ofRevDigits_decimalDigits (n : Nat) :
    ofRevDigits (decimalDigits n).reverse = n := by
  unfold decimalDigits
  split
  · rename_i h; subst h; decide
  · rw [List.reverse_reverse]; exact ofRevDigits_natToRevDigits n

/-- The date codec round-trips: parsing a rendered date yields the
original epoch milliseconds. -/

theorem isoParse_isoOfDate (ms : Nat) : isoParse (isoOfDate ms) = some ms := by
  unfold isoParse isoOfDate
  simp only []
  unfold parseDecimal
  rw [if_neg (decimalDigits_ne_nil ms), if_pos (decimalDigits_all_digits ms),
    ofRevDigits_decimalDigits]

mutual

/-- On a value with no date-like strings, reviving the JSON image
recovers the original value. -/
theorem reviveDates_jsonImage : ∀ v : JVal, isoCleanB v = true →
    reviveDates (jsonImage v) = v
  | .null, _ => rfl
  | .bool _, _ => rfl
  | .num _, _ => rfl
  | .bigint _, _ => rfl
  | .str s, h => by
    simp only [isoCleanB, Option.isNone_iff_eq_none] at h
    simp [jsonImage, reviveDates, h]
  | .date ms, _ => by simp [jsonImage, reviveDates, isoParse_isoOfDate]
  | .arr xs, h => by
    simp only [jsonImage, reviveDates, JVal.arr.injEq]
    exact reviveDatesList_jsonImageList xs h
  | .obj fs, h => by
    simp only [jsonImage, reviveDates, JVal.obj.injEq]
    exact reviveDatesFields_jsonImageFields fs h

/-- List version of `reviveDates_jsonImage`. -/
theorem reviveDatesList_jsonImageList : ∀ xs : List JVal,
    isoCleanListB xs = true → reviveDatesList (jsonImageList xs) = xs
  | [], _ => rfl
  | x :: xs, h => by
    simp only [isoCleanListB, Bool.and_eq_true] at h
    simp only [jsonImageList, reviveDatesList, List.cons.injEq]
    exact ⟨reviveDates_jsonImage x h.1, reviveDatesList_jsonImageList xs h.2⟩

/-- Fields version of `reviveDates_jsonImage`. -/
theorem reviveDatesFields_jsonImageFields : ∀ fs : List (String × JVal),
    isoCleanFieldsB fs = true → reviveDatesFields (jsonImageFields fs) = fs
  | [], _ => rfl
  | (k, v) :: fs, h => by
    simp only [isoCleanFieldsB, Bool.and_eq_true] at h
    simp only [jsonImageFields, reviveDatesFields, List.cons.injEq,
      Prod.mk.injEq, true_and]
    exact ⟨reviveDates_jsonImage v h.1, reviveDatesFields_jsonImageFields fs h.2⟩

end

mutual

/-- On a date-free value the JSON image is the value itself. -/
theorem jsonImage_of_dateFree : ∀ v : JVal, dateFreeB v = true → jsonImage v = v
  | .null, _ => rfl
  | .bool _, _ => rfl
  | .num _, _ => rfl
  | .bigint _, _ => rfl
  | .str _, _ => rfl
  | .arr xs, h => by
    simp only [jsonImage, JVal.arr.injEq]
    exact jsonImageList_of_dateFree xs h
  | .obj fs, h => by
    simp only [jsonImage, JVal.obj.injEq]
    exact jsonImageFields_of_dateFree fs h

/-- List version of `jsonImage_of_dateFree`. -/
theorem jsonImageList_of_dateFree : ∀ xs : List JVal,
    dateFreeListB xs = true → jsonImageList xs = xs
  | [], _ => rfl
  | x :: xs, h => by
    simp only [dateFreeListB, Bool.and_eq_true] at h
    simp only [jsonImageList, List.cons.injEq]
    exact ⟨jsonImage_of_dateFree x h.1, jsonImageList_of_dateFree xs h.2⟩

/-- Fields version of `jsonImage_of_dateFree`. -/
theorem jsonImageFields_of_dateFree : ∀ fs : List (String × JVal),
    dateFreeFieldsB fs = true → jsonImageFields fs = fs
  | [], _ => rfl
  | (k, v) :: fs, h => by
    simp only [dateFreeFieldsB, Bool.and_eq_true] at h
    simp only [jsonImageFields, List.cons.injEq, Prod.mk.injEq, true_and]
    exact ⟨jsonImage_of_dateFree v h.1, jsonImageFields_of_dateFree fs h.2⟩

end

/- ### Claims C1, C2, C8: the encryption codec -/

theorem decryptData_json (v : JVal) (k : String) :
    decryptData (.json v) k = some v := rfl

theorem decryptData_raw (s : String) (k : String) :
    decryptData (.raw s) k = none := rfl

theorem decryptData_cipher_json (v : JVal) (k : String) :
    decryptData (.cipher k (.json v)) k = some v := by
  unfold decryptData aesDecrypt
  simp [JsString.isFalsy, jsonParseE]

/-- C1: For every valid (JSON-serializable) record `R` and every key `k`,
decoding the result of encoding `R` returns the value denoted by `R`'s
canonical JSON text, which is deeply equal to `R` after timestamp
reconstitution; and on the plaintext path `JSON.parse ∘ JSON.stringify`
likewise returns that value.  The hypotheses say that `R` is
JSON-serializable (no BigInt) and that no ordinary string inside `R`
masquerades as a rendered date. -/

theorem C1_encode_decode_roundtrip (R : JVal) (k : String)
    (hser : serializableB R = true) (hiso : isoCleanB R = true) :
    encryptData R k = .ok (aesEncrypt (.json (jsonImage R)) k) ∧
    decryptData (aesEncrypt (.json (jsonImage R)) k) k = some (jsonImage R) ∧
    stringifyE R = .ok (.json (jsonImage R)) ∧
    jsonParseE (.json (jsonImage R)) = .ok (jsonImage R) ∧
    reviveDates (jsonImage R) = R := by
  have hstr : stringifyE R = .ok (.json (jsonImage R)) := by
    unfold stringifyE; rw [if_pos hser]
  refine ⟨?_, ?_, hstr, rfl, reviveDates_jsonImage R hiso⟩
  · unfold encryptData
    rw [hstr]
  · exact decryptData_cipher_json (jsonImage R) k

/-- Witness for `C1_encode_decode_roundtrip` at a concrete consultation-like
record. -/

theorem C1_encode_decode_roundtrip_witness :
    decryptData
      (aesEncrypt (.json (jsonImage (.obj [("id", .str "c1"),
        ("timestamp", .date 1700000000000)]))) DEFAULT_KEY) DEFAULT_KEY =
      some (jsonImage (.obj [("id", .str "c1"),
        ("timestamp", .date 1700000000000)])) ∧
    reviveDates (jsonImage (.obj [("id", .str "c1"),
        ("timestamp", .date 1700000000000)])) =
      .obj [("id", .str "c1"), ("timestamp", .date 1700000000000)] :=
  ⟨(C1_encode_decode_roundtrip _ DEFAULT_KEY (by decide) (by decide)).2.1,
   (C1_encode_decode_roundtrip _ DEFAULT_KEY (by decide) (by decide)).2.2.2.2⟩

/-- C2: `decryptData` never throws on any input string (its result type is
`Option`, total by construction): a plain JSON text decodes to its value
regardless of the key (the backward-compatibility path), so
`decryptData(JSON.stringify(R))` recovers `R` even when encryption is
enabled; and when both decryption and plain parsing fail — raw garbage, or
a ciphertext under a different key — it returns `null`. -/

theorem C2_decrypt_never_throws (k : String) :
    (∀ v : JVal, decryptData (.json v) k = some v) ∧
    (∀ R : JVal, serializableB R = true →
      ∃ w, stringifyE R = .ok w ∧ decryptData w k = some (jsonImage R) ∧
        (dateFreeB R = true → decryptData w k = some R)) ∧
    (∀ s, decryptData (.raw s) k = none) ∧
    (∀ k' p, k' ≠ k → decryptData (.cipher k' p) k = none) := by
  refine ⟨fun v => rfl, ?_, fun s => rfl, ?_⟩
  · intro R hser
    refine ⟨.json (jsonImage R), by unfold stringifyE; rw [if_pos hser], rfl, ?_⟩
    intro hdf
    rw [jsonImage_of_dateFree R hdf]
    rfl
  · intro k' p hne
    unfold decryptData aesDecrypt
    simp [if_neg hne, JsString.isFalsy, jsonParseE]

/-- Witness for `C2_decrypt_never_throws` at concrete inputs: a plain
serialized record decodes with encryption enabled, raw garbage yields
`null`, and a wrong-key ciphertext yields `null`. -/

theorem C2_decrypt_never_throws_witness :
    decryptData (.json (.obj [("age", .num 34)])) DEFAULT_KEY =
      some (.obj [("age", .num 34)]) ∧
    decryptData (.raw "not json at all") DEFAULT_KEY = none ∧
    decryptData (.cipher "other_key" (.json .null)) DEFAULT_KEY = none :=
  ⟨(C2_decrypt_never_throws DEFAULT_KEY).1 _,
   (C2_decrypt_never_throws DEFAULT_KEY).2.2.1 _,
   (C2_decrypt_never_throws DEFAULT_KEY).2.2.2 _ _ (by decide)⟩

/-- C8 counterexample: the claim "`encryptData` never throws; on internal
serialization failure it returns the plain serialization" is false: on a
value `JSON.stringify` cannot serialize (a BigInt — in the browser also any
circular structure), the catch block's `JSON.stringify(data)` fails for the
same reason, and the exception propagates. -/

theorem C8_counterexample :
    encryptData (.bigint 1) DEFAULT_KEY = .error .typeError := rfl

/-- C8 amended: on every serializable input, `encryptData` never throws
and returns the AES ciphertext of the canonical JSON text (in this model
encryption of a string cannot fail, so the plain-JSON fallback branch is
unreachable); when serialization itself fails, the catch-block fallback
re-serializes the same data and the `TypeError` propagates. -/

theorem C8_encrypt_fallback (data : JVal) (k : String) :
    (serializableB data = true →
      encryptData data k = .ok (aesEncrypt (.json (jsonImage data)) k)) ∧
    (serializableB data = false →
      encryptData data k = .error .typeError) := by
  constructor
  · intro h
    unfold encryptData stringifyE
    rw [if_pos h]
  · intro h
    unfold encryptData stringifyE
    rw [if_neg (by simp [h])]

/-- Witness for `C8_encrypt_fallback` at concrete inputs. -/

theorem C8_encrypt_fallback_witness :
    encryptData (.obj [("age", .num 34)]) DEFAULT_KEY =
      .ok (aesEncrypt (.json (jsonImage (.obj [("age", .num 34)]))) DEFAULT_KEY) ∧
    encryptData (.arr [.bigint 7]) DEFAULT_KEY = .error .typeError :=
  ⟨(C8_encrypt_fallback _ DEFAULT_KEY).1 (by decide),
   (C8_encrypt_fallback _ DEFAULT_KEY).2 (by decide)⟩

theorem configFor_maxRequests_pos (e : String) : 1 ≤ (configFor e).maxRequests := by
  unfold configFor RATE_LIMITS
  simp only [List.lookup]
  repeat' split
  all_goals simp_all

theorem jsCeilDiv_pos {a : Int} (h : 0 < a) : 1 ≤ jsCeilDiv a 1000 := by
  unfold jsCeilDiv
  have h1 : -a ≤ -1 := by omega
  have := Int.ediv_le_ediv (c := 1000) (by omega) h1
  have h2 : (-1 : Int) / 1000 = -1 := by decide
  omega

theorem inWindow_head_mem {hist : RequestHistory} {e : String} {now : Int}
    (h : inWindow hist e now ≠ []) :
    (inWindow hist e now).head?.getD 0 ∈ inWindow hist e now := by
  cases hw : inWindow hist e now with
  | nil => exact absurd hw h
  | cons a l => simp

theorem inWindow_mem_gt {hist : RequestHistory} {e : String} {now t : Int}
    (h : t ∈ inWindow hist e now) : now - (configFor e).windowMs < t := by
  have := List.of_mem_filter h
  simpa using this

/-- C3: `checkRateLimit` first discards timestamps outside the endpoint's
`(maxRequests, windowMs)` window (default policy `(30, 60000)` for an
unrecognized endpoint); if the in-window count has reached `maxRequests`
it throws a `RateLimitError` carrying
`remainingTime = ceil((oldest + windowMs - now) / 1000)`, which is
positive; otherwise it appends `now` and succeeds.  Concretely, on the
`symptom-analysis` policy `(5, 60000)`: five admissions in-window
succeed, the sixth throws with positive `remainingTime`, and after the
window has passed an admission succeeds again. -/

theorem C3_checkRateLimit_behaviour (hist : RequestHistory) (e : String) (now : Int) :
    ((inWindow hist e now).length < (configFor e).maxRequests →
      checkRateLimit hist e now = .ok (hSet hist e (inWindow hist e now ++ [now]))) ∧
    ((configFor e).maxRequests ≤ (inWindow hist e now).length →
      checkRateLimit hist e now = .error
        ⟨jsCeilDiv ((inWindow hist e now).head?.getD 0 + (configFor e).windowMs - now) 1000⟩ ∧
      1 ≤ jsCeilDiv ((inWindow hist e now).head?.getD 0 + (configFor e).windowMs - now) 1000) ∧
    (RATE_LIMITS.lookup e = none → configFor e = ⟨30, 60000⟩) ∧
    (configFor "symptom-analysis" = ⟨5, 60000⟩ ∧
      admitTimes "symptom-analysis" [0, 1000, 2000, 3000, 4000] [] =
        .ok [("symptom-analysis", [0, 1000, 2000, 3000, 4000])] ∧
      checkRateLimit [("symptom-analysis", [0, 1000, 2000, 3000, 4000])]
        "symptom-analysis" 5000 = .error ⟨55⟩ ∧
      checkRateLimit [("symptom-analysis", [0, 1000, 2000, 3000, 4000])]
        "symptom-analysis" 70000 = .ok [("symptom-analysis", [70000])]) := by
  refine ⟨?_, ?_, ?_, rfl, rfl, rfl, rfl⟩
  · intro h
    unfold checkRateLimit
    rw [if_neg (by simpa [inWindow, hGet] using Nat.not_le_of_lt h)]
    rfl
  · intro h
    have hne : inWindow hist e now ≠ [] := by
      intro hnil
      rw [hnil] at h
      simp at h
      have := configFor_maxRequests_pos e
      omega
    have hpos : 0 < (inWindow hist e now).head?.getD 0 + (configFor e).windowMs - now := by
      have := inWindow_mem_gt (inWindow_head_mem hne)
      omega
    constructor
    · unfold checkRateLimit
      rw [if_pos (by simpa [inWindow, hGet] using h)]
      rfl
    · exact jsCeilDiv_pos hpos
  · intro h
    unfold configFor
    rw [h]
    rfl

/-- Witness for `C3_checkRateLimit_behaviour`: concrete success and
rejection instances obtained from the general parts of the theorem. -/

theorem C3_checkRateLimit_behaviour_witness :
    checkRateLimit [("chat", [500])] "chat" 1000 =
      .ok (hSet [("chat", [500])] "chat"
        (inWindow [("chat", [500])] "chat" 1000 ++ [1000])) ∧
    checkRateLimit [("diet-plan", [0, 10, 20])] "diet-plan" 30 = .error
      ⟨jsCeilDiv ((inWindow [("diet-plan", [0, 10, 20])] "diet-plan" 30).head?.getD 0 +
        (configFor "diet-plan").windowMs - 30) 1000⟩ :=
  ⟨(C3_checkRateLimit_behaviour [("chat", [500])] "chat" 1000).1 (by decide),
   ((C3_checkRateLimit_behaviour [("diet-plan", [0, 10, 20])] "diet-plan" 30).2.1
     (by decide)).1⟩

/-- C9: the auxiliary queries `getRemainingRequests` and
`getTimeUntilReset` do not mutate the limiter state: they return the
request-history map unchanged, so a subsequent `checkRateLimit` at the
same instant behaves identically. -/

theorem C9_queries_readonly (hist : RequestHistory) (e e' : String) (now now' : Int) :
    (getRemainingRequests hist e now).2 = hist ∧
    (getTimeUntilReset hist e now).2 = hist ∧
    checkRateLimit ((getRemainingRequests hist e now).2) e' now' =
      checkRateLimit hist e' now' ∧
    checkRateLimit ((getTimeUntilReset hist e now).2) e' now' =
      checkRateLimit hist e' now' := by
  have h2 : (getTimeUntilReset hist e now).2 = hist := by
    unfold getTimeUntilReset
    dsimp only
    split <;> rfl
  exact ⟨rfl, h2, rfl, by rw [h2]⟩

/-- C10: at a fixed instant, `getTimeUntilReset` returns `0` exactly when
`checkRateLimit` would succeed (every configured policy, including the
default, has `maxRequests ≥ 1`), and a positive return value equals
`oldest_in_window + windowMs - now`. -/

theorem C10_reset_iff_ok (hist : RequestHistory) (e : String) (now : Int) :
    ((getTimeUntilReset hist e now).1 = 0 ↔
      ∃ hist', checkRateLimit hist e now = .ok hist') ∧
    (0 < (getTimeUntilReset hist e now).1 →
      (getTimeUntilReset hist e now).1 =
        (inWindow hist e now).head?.getD 0 + (configFor e).windowMs - now) := by
  have hmax := configFor_maxRequests_pos e
  have hfil : ((hGet hist e).filter
      (fun timestamp => now - (configFor e).windowMs < timestamp)) =
      inWindow hist e now := rfl
  by_cases hc : (configFor e).maxRequests ≤ (inWindow hist e now).length ∧
      0 < (inWindow hist e now).length
  · have hne : inWindow hist e now ≠ [] := by
      intro hnil
      rw [hnil] at hc
      simp at hc
    have hpos : 0 < (inWindow hist e now).head?.getD 0 + (configFor e).windowMs - now := by
      have := inWindow_mem_gt (inWindow_head_mem hne)
      omega
    have hval : (getTimeUntilReset hist e now).1 =
        (inWindow hist e now).head?.getD 0 + (configFor e).windowMs - now := by
      unfold getTimeUntilReset
      rw [if_pos (by simpa [inWindow, hGet] using hc)]
      rfl
    constructor
    · rw [hval]
      constructor
      · intro h0
        omega
      · rintro ⟨hist', hok⟩
        unfold checkRateLimit at hok
        rw [if_pos (by simpa [inWindow, hGet] using hc.1)] at hok
        cases hok
    · intro _
      exact hval
  · have hlt : (inWindow hist e now).length < (configFor e).maxRequests := by
      rcases Nat.lt_or_ge (inWindow hist e now).length (configFor e).maxRequests with h | h
      · exact h
      · exfalso
        apply hc
        constructor
        · exact h
        · omega
    have hval : (getTimeUntilReset hist e now).1 = 0 := by
      unfold getTimeUntilReset
      rw [if_neg (by simpa [inWindow, hGet] using hc)]
    constructor
    · rw [hval]
      simp only [true_iff]
      refine ⟨hSet hist e (inWindow hist e now ++ [now]), ?_⟩
      unfold checkRateLimit
      rw [if_neg (by simpa [inWindow, hGet] using Nat.not_le_of_lt hlt), hfil]
    · intro h
      rw [hval] at h
      omega

/-- Witness for `C10_reset_iff_ok`: a saturated `diet-plan` window
reports a positive reset time equal to `oldest + windowMs - now`, and a
zero reset time coincides with a successful admission. -/

theorem C10_reset_iff_ok_witness :
    (getTimeUntilReset [("diet-plan", [0, 10, 20])] "diet-plan" 30).1 =
      (inWindow [("diet-plan", [0, 10, 20])] "diet-plan" 30).head?.getD 0 +
        (configFor "diet-plan").windowMs - 30 ∧
    ∃ hist', checkRateLimit [("chat", [500])] "chat" 1000 = .ok hist' :=
  ⟨(C10_reset_iff_ok [("diet-plan", [0, 10, 20])] "diet-plan" 30).2 (by decide),
   ((C10_reset_iff_ok [("chat", [500])] "chat" 1000).1).mp (by decide)⟩

theorem lookup_jsonImageFields (k : String) :
    ∀ fs : List (String × JVal),
      (jsonImageFields fs).lookup k = (fs.lookup k).map jsonImage
  | [] => rfl
  | (k0, v) :: fs => by
    simp only [jsonImageFields, List.lookup]
    cases h : k == k0
    · simpa [h] using lookup_jsonImageFields k fs
    · simp [h]

theorem keys_jsonImageFields :
    ∀ fs : List (String × JVal),
      (jsonImageFields fs).map Prod.fst = fs.map Prod.fst
  | [] => rfl
  | (k0, v) :: fs => by
    simp [jsonImageFields, keys_jsonImageFields fs]

theorem lookup_mem {k : String} {v : JVal} :
    ∀ {fs : List (String × JVal)}, fs.lookup k = some v → (k, v) ∈ fs := by
  intro fs
  induction fs with
  | nil => intro h; cases h
  | cons kv fs ih =>
    intro h
    obtain ⟨k0, v0⟩ := kv
    simp only [List.lookup] at h
    cases hk : k == k0 with
    | true =>
      rw [hk] at h
      cases h
      have : k = k0 := by simpa using hk
      subst this
      exact List.mem_cons_self _ _
    | false =>
      rw [hk] at h
      exact List.mem_cons_of_mem _ (ih h)

theorem lookup_of_contains {k : String} :
    ∀ {fs : List (String × JVal)}, (fs.map Prod.fst).contains k = true →
      ∃ v, fs.lookup k = some v := by
  intro fs
  induction fs with
  | nil => intro h; simp at h
  | cons kv fs ih =>
    intro h
    obtain ⟨k0, v0⟩ := kv
    simp only [List.map_cons, List.contains_cons] at h
    cases hk : k == k0 with
    | true => exact ⟨v0, by simp [List.lookup, hk]⟩
    | false =>
      rw [hk] at h
      simp only [Bool.false_or] at h
      obtain ⟨v, hv⟩ := ih h
      exact ⟨v, by simp [List.lookup, hk, hv]⟩

theorem goodField_ts {v : JVal} (h : goodFieldB ("timestamp", v) = true) :
    ∃ ms, v = .date ms := by
  unfold goodFieldB at h
  simp only [beq_self_eq_true, if_true] at h
  cases v <;> first | exact ⟨_, rfl⟩ | simp_all

theorem goodField_other {k : String} {v : JVal} (hk : (k == "timestamp") = false)
    (h : goodFieldB (k, v) = true) :
    dateFreeB v = true ∧ serializableB v = true := by
  unfold goodFieldB at h
  rw [hk] at h
  simpa using h

theorem replace_fields_no_ts {ms : Nat} :
    ∀ fs : List (String × JVal),
      (fs.map Prod.fst).contains "timestamp" = false →
      fs.all goodFieldB = true →
      (jsonImageFields fs).map
        (fun kv => if kv.1 = "timestamp" then ("timestamp", JVal.date ms) else kv) = fs := by
  intro fs
  induction fs with
  | nil => intro _ _; rfl
  | cons kv fs ih =>
    intro hc hall
    obtain ⟨k0, v0⟩ := kv
    simp only [List.map_cons, List.contains_cons, Bool.or_eq_false_iff] at hc
    simp only [List.all_cons, Bool.and_eq_true] at hall
    have hk0 : (k0 == "timestamp") = false := by
      cases h : k0 == "timestamp"
      · rfl
      · exfalso
        have hx : k0 = "timestamp" := by simpa using h
        subst hx
        simpa using hc.1
    obtain ⟨hdf, _⟩ := goodField_other hk0 hall.1
    simp only [jsonImageFields, List.map_cons]
    rw [if_neg (by simpa using hk0)]
    rw [jsonImage_of_dateFree v0 hdf, ih hc.2 hall.2]

theorem replace_fields_ts {ms : Nat} :
    ∀ fs : List (String × JVal),
      nodupKeys fs = true →
      fs.all goodFieldB = true →
      fs.lookup "timestamp" = some (.date ms) →
      (jsonImageFields fs).map
        (fun kv => if kv.1 = "timestamp" then ("timestamp", JVal.date ms) else kv) = fs := by
  intro fs
  induction fs with
  | nil => intro _ _ h; cases h
  | cons kv fs ih =>
    intro hnd hall hlk
    obtain ⟨k0, v0⟩ := kv
    simp only [nodupKeys, Bool.and_eq_true, Bool.not_eq_true'] at hnd
    simp only [List.all_cons, Bool.and_eq_true] at hall
    simp only [List.lookup] at hlk
    cases hk : "timestamp" == k0 with
    | true =>
      rw [hk] at hlk
      have hk0 : k0 = "timestamp" := by
        have hx : "timestamp" = k0 := by simpa using hk
        exact hx.symm
      subst hk0
      have hv0 : v0 = .date ms := by
        cases hlk
        rfl
      subst hv0
      simp only [jsonImageFields, List.map_cons, if_true]
      rw [replace_fields_no_ts fs hnd.1 hall.2]
    | false =>
      rw [hk] at hlk
      have hne : (k0 == "timestamp") = false := by
        cases h2 : k0 == "timestamp"
        · rfl
        · exfalso
          have hx : k0 = "timestamp" := by simpa using h2
          subst hx
          simp at hk
      obtain ⟨hdf, _⟩ := goodField_other hne hall.1
      simp only [jsonImageFields, List.map_cons]
      rw [if_neg (by simpa using hne)]
      rw [jsonImage_of_dateFree v0 hdf, ih hnd.2 hall.2 hlk]

theorem objSpreadSet_obj (fs : List (String × JVal)) (k : String) (v : JVal) :
    objSpreadSet (.obj fs) k v =
      if (fs.map Prod.fst).contains k then
        .obj (fs.map (fun kv => if kv.1 = k then (k, v) else kv))
      else .obj (fs ++ [(k, v)]) := rfl

theorem objGet_obj (fs : List (String × JVal)) (k : String) :
    objGet (.obj fs) k = fs.lookup k := rfl

theorem reconstituteTimestampE_obj (fs : List (String × JVal)) :
    reconstituteTimestampE (.obj fs) =
      .ok (objSpreadSet (.obj fs) "timestamp"
        (jsNewDate (objGet (.obj fs) "timestamp"))) := rfl

theorem jsNewDate_iso (ms : Nat) :
    jsNewDate (some (.str (isoOfDate ms))) = .date ms := by
  show (match isoParse (isoOfDate ms) with
    | some ms' => JVal.date ms'
    | none => JVal.null) = .date ms
  rw [isoParse_isoOfDate]

/-- A well-formed record survives the read path's timestamp
reconstitution applied to its JSON image. -/

theorem reconstitute_image_good {c : JVal} (h : goodRecord c = true) :
    reconstituteTimestampE (jsonImage c) = .ok c := by
  cases c with
  | obj fs =>
    simp only [goodRecord, Bool.and_eq_true] at h
    obtain ⟨⟨hnd, hcont⟩, hall⟩ := h
    obtain ⟨v, hv⟩ := lookup_of_contains hcont
    have hmem := lookup_mem hv
    have hgf : goodFieldB ("timestamp", v) = true := by
      have := List.all_eq_true.mp hall _ hmem
      simpa using this
    obtain ⟨ms, rfl⟩ := goodField_ts hgf
    rw [show jsonImage (.obj fs) = .obj (jsonImageFields fs) from rfl]
    rw [reconstituteTimestampE_obj, objGet_obj, lookup_jsonImageFields, hv]
    rw [show Option.map jsonImage (some (JVal.date ms)) =
      some (.str (isoOfDate ms)) from rfl]
    rw [jsNewDate_iso, objSpreadSet_obj, keys_jsonImageFields]
    rw [if_pos hcont]
    rw [replace_fields_ts fs hnd hall hv]
  | null => simp [goodRecord] at h
  | bool b => simp [goodRecord] at h
  | num n => simp [goodRecord] at h
  | bigint n => simp [goodRecord] at h
  | str s => simp [goodRecord] at h
  | date ms => simp [goodRecord] at h
  | arr xs => simp [goodRecord] at h

theorem all_goodField_serializable :
    ∀ fs : List (String × JVal), fs.all goodFieldB = true →
      serializableFieldsB fs = true := by
  intro fs
  induction fs with
  | nil => intro _; rfl
  | cons kv fs ih =>
    intro h
    obtain ⟨k, v⟩ := kv
    simp only [List.all_cons, Bool.and_eq_true] at h
    have hv : serializableB v = true := by
      cases hk : k == "timestamp" with
      | true =>
        have h1 := h.1
        unfold goodFieldB at h1
        rw [hk] at h1
        simp only [if_true] at h1
        cases v <;> first | rfl | simp_all
      | false => exact (goodField_other hk h.1).2
    show (serializableB v && serializableFieldsB fs) = true
    rw [hv, ih h.2]
    rfl

theorem goodRecord_serializable {c : JVal} (h : goodRecord c = true) :
    serializableB c = true := by
  cases c with
  | obj fs =>
    simp only [goodRecord, Bool.and_eq_true] at h
    exact all_goodField_serializable fs h.2
  | null => simp [goodRecord] at h
  | bool b => simp [goodRecord] at h
  | num n => simp [goodRecord] at h
  | bigint n => simp [goodRecord] at h
  | str s => simp [goodRecord] at h
  | date ms => simp [goodRecord] at h
  | arr xs => simp [goodRecord] at h

theorem serializableListB_of_all :
    ∀ l : List JVal, (∀ x ∈ l, serializableB x = true) →
      serializableListB l = true := by
  intro l
  induction l with
  | nil => intro _; rfl
  | cons x xs ih =>
    intro h
    show (serializableB x && serializableListB xs) = true
    rw [h x (List.mem_cons_self _ _), ih (fun y hy => h y (List.mem_cons_of_mem _ hy))]
    rfl

theorem jsMapListE_recon_image :
    ∀ l : List JVal, (∀ x ∈ l, goodRecord x = true) →
      jsMapListE reconstituteTimestampE (jsonImageList l) = .ok l := by
  intro l
  induction l with
  | nil => intro _; rfl
  | cons x xs ih =>
    intro h
    show jsMapListE reconstituteTimestampE (jsonImage x :: jsonImageList xs) = .ok (x :: xs)
    unfold jsMapListE
    rw [reconstitute_image_good (h x (List.mem_cons_self _ _)),
      ih (fun y hy => h y (List.mem_cons_of_mem _ hy))]

theorem jsMapListE_length {f : JVal → Except JsError JVal} :
    ∀ {xs ys : List JVal}, jsMapListE f xs = .ok ys → ys.length = xs.length := by
  intro xs
  induction xs with
  | nil => intro ys h; cases h; rfl
  | cons x xs ih =>
    intro ys h
    unfold jsMapListE at h
    cases hfx : f x with
    | error e => rw [hfx] at h; cases h
    | ok y =>
      rw [hfx] at h
      cases hrec : jsMapListE f xs with
      | error e => rw [hrec] at h; cases h
      | ok ys' =>
        rw [hrec] at h
        cases h
        simp [ih hrec]

theorem jsonImageList_length : ∀ xs : List JVal,
    (jsonImageList xs).length = xs.length
  | [] => rfl
  | x :: xs => by simp [jsonImageList, jsonImageList_length xs]

theorem storeGet_storeSet_self (st : Store) (k : String) (v : JsString) :
    storeGet (storeSet st k v) k = some v := by
  simp [storeGet, storeSet, List.lookup]

theorem collectionBlob_not_falsy (enc : Bool) (l : List JVal) :
    (collectionBlob enc l).isFalsy = false := by
  cases enc <;> rfl

theorem getConsultationsE_blob (enc : Bool) (l : List JVal) :
    getConsultationsE enc (collectionBlob enc l) =
      jsMapListE reconstituteTimestampE (jsonImageList l) := by
  cases enc with
  | false => rfl
  | true =>
    show (match (Except.ok (jsOrNull (decryptData
        (JsString.cipher DEFAULT_KEY (JsString.json (JVal.arr (jsonImageList l))))
        DEFAULT_KEY) (JVal.arr [])) : Except JsError JVal) with
      | .error e => .error e
      | .ok consultations => jsMapE consultations reconstituteTimestampE) =
      jsMapListE reconstituteTimestampE (jsonImageList l)
    rw [decryptData_cipher_json]
    rfl

theorem stringifyE_list (l : List JVal) (h : serializableListB l = true) :
    stringifyE (.arr l) = .ok (.json (.arr (jsonImageList l))) := by
  unfold stringifyE
  rw [if_pos (by exact h)]
  rfl

theorem encryptData_list (l : List JVal) (h : serializableListB l = true) :
    encryptData (.arr l) DEFAULT_KEY =
      .ok (.cipher DEFAULT_KEY (.json (.arr (jsonImageList l)))) := by
  unfold encryptData
  rw [stringifyE_list l h]
  rfl

theorem saveConsultation_spec (enc : Bool) (st : Store) (c : JVal)
    (hser : serializableListB ((c :: getConsultations enc st).take 50) = true) :
    saveConsultation enc st c = .ok (storeSet st CONSULTATIONS_KEY
      (collectionBlob enc ((c :: getConsultations enc st).take 50))) := by
  cases enc with
  | false =>
    show (match stringifyE (.arr ((c :: getConsultations false st).take 50)) with
      | .ok s => Except.ok (storeSet st CONSULTATIONS_KEY s)
      | .error e => .error e) = _
    rw [stringifyE_list _ hser]
    rfl
  | true =>
    show (match encryptData (.arr ((c :: getConsultations true st).take 50)) DEFAULT_KEY with
      | .ok encrypted => Except.ok (storeSet st CONSULTATIONS_KEY encrypted)
      | .error e => .error e) = _
    rw [encryptData_list _ hser]
    rfl

theorem getConsultations_storeSet_blob (enc : Bool) (st : Store) (l : List JVal)
    (hgood : ∀ x ∈ l, goodRecord x = true) :
    getConsultations enc (storeSet st CONSULTATIONS_KEY (collectionBlob enc l)) = l := by
  unfold getConsultations
  rw [storeGet_storeSet_self]
  show (if (collectionBlob enc l).isFalsy then ([] : List JVal)
    else match getConsultationsE enc (collectionBlob enc l) with
      | .ok cs => cs
      | .error _ => []) = l
  simp only [collectionBlob_not_falsy, Bool.false_eq_true, if_false]
  rw [getConsultationsE_blob, jsMapListE_recon_image l hgood]

theorem take_append_take {α : Type} (a b : List α) (n : Nat) :
    (a ++ b.take n).take n = (a ++ b).take n := by
  rw [List.take_append_eq_append_take, List.take_append_eq_append_take,
    List.take_take]
  congr 2
  omega

theorem getChatHistoryE_eq : getChatHistoryE = getConsultationsE := rfl

theorem saveChatHistory_spec (enc : Bool) (st : Store) (module : String)
    (msgs : List JVal)
    (hser : serializableListB (msgs.drop (msgs.length - 50)) = true) :
    saveChatHistory enc st module msgs = .ok (storeSet st (chatKey module)
      (collectionBlob enc (msgs.drop (msgs.length - 50)))) := by
  cases enc with
  | false =>
    show (match stringifyE (.arr (msgs.drop (msgs.length - 50))) with
      | .ok s => Except.ok (storeSet st (chatKey module) s)
      | .error e => .error e) = _
    rw [stringifyE_list _ hser]
    rfl
  | true =>
    show (match encryptData (.arr (msgs.drop (msgs.length - 50))) DEFAULT_KEY with
      | .ok encrypted => Except.ok (storeSet st (chatKey module) encrypted)
      | .error e => .error e) = _
    rw [encryptData_list _ hser]
    rfl

theorem getChatHistory_storeSet_blob (enc : Bool) (st : Store) (module : String)
    (l : List JVal) (hgood : ∀ x ∈ l, goodRecord x = true) :
    getChatHistory enc (storeSet st (chatKey module) (collectionBlob enc l))
      module = l := by
  unfold getChatHistory
  rw [storeGet_storeSet_self]
  show (if (collectionBlob enc l).isFalsy then ([] : List JVal)
    else match getChatHistoryE enc (collectionBlob enc l) with
      | .ok msgs => msgs
      | .error _ => []) = l
  simp only [collectionBlob_not_falsy, Bool.false_eq_true, if_false]
  rw [getChatHistoryE_eq, getConsultationsE_blob, jsMapListE_recon_image l hgood]

theorem asStringList_map_str : ∀ l : List String,
    asStringList (l.map JVal.str) = .ok l
  | [] => rfl
  | s :: l => by
    show (match asStringList (l.map JVal.str) with
      | .ok l' => Except.ok (s :: l')
      | .error e => .error e) = .ok (s :: l)
    rw [asStringList_map_str l]

theorem strs_dateFree : ∀ l : List String,
    dateFreeListB (l.map JVal.str) = true
  | [] => rfl
  | s :: l => by
    show (dateFreeB (.str s) && dateFreeListB (l.map JVal.str)) = true
    rw [strs_dateFree l]
    rfl

theorem strs_serializable : ∀ l : List String,
    serializableListB (l.map JVal.str) = true
  | [] => rfl
  | s :: l => by
    show (serializableB (.str s) && serializableListB (l.map JVal.str)) = true
    rw [strs_serializable l]
    rfl

theorem stringifyE_strs (l : List String) :
    stringifyE (.arr (l.map JVal.str)) = .ok (.json (.arr (l.map JVal.str))) := by
  rw [stringifyE_list _ (strs_serializable l),
    jsonImageList_of_dateFree _ (strs_dateFree l)]

theorem getDrugHistory_storeSet (st : Store) (l : List String) :
    getDrugHistory (storeSet st DRUG_HISTORY_KEY (.json (.arr (l.map JVal.str)))) =
      .ok (.arr (l.map JVal.str)) := by
  unfold getDrugHistory
  rw [storeGet_storeSet_self]
  rfl

theorem saveDrugSearch_spec (st : Store) (history : List String) (q : String)
    (hget : getDrugHistory st = .ok (.arr (history.map JVal.str))) :
    saveDrugSearch st q = .ok (storeSet st DRUG_HISTORY_KEY (.json (.arr
      (((q :: history.filter (fun d => d.jsToLower ≠ q.jsToLower)).take 20).map
        JVal.str)))) := by
  unfold saveDrugSearch
  rw [hget]
  show (match asStringList (history.map JVal.str) with
    | .error e => Except.error e
    | .ok hist =>
      match stringifyE (.arr (((q :: hist.filter
          (fun d => d.jsToLower ≠ q.jsToLower)).take 20).map JVal.str)) with
      | .ok s => Except.ok (storeSet st DRUG_HISTORY_KEY s)
      | .error e => .error e) = _
  rw [asStringList_map_str]
  show (match stringifyE (.arr (((q :: history.filter
      (fun d => d.jsToLower ≠ q.jsToLower)).take 20).map JVal.str)) with
    | .ok s => Except.ok (storeSet st DRUG_HISTORY_KEY s)
    | .error e => .error e) = _
  rw [stringifyE_strs]

theorem saveConsultations_invariant (enc : Bool) :
    ∀ (cs : List JVal) (st : Store) (l : List JVal),
      getConsultations enc st = l → l.length ≤ 50 →
      (∀ x ∈ l, goodRecord x = true) →
      (∀ x ∈ cs, goodRecord x = true) →
      ∃ st', saveConsultations enc cs st = .ok st' ∧
        getConsultations enc st' = (cs.reverse ++ l).take 50 := by
  intro cs
  induction cs with
  | nil =>
    intro st l hget hlen _ _
    refine ⟨st, rfl, ?_⟩
    rw [List.reverse_nil, List.nil_append, List.take_of_length_le hlen, hget]
  | cons c cs ih =>
    intro st l hget hlen hgoodl hgoodcs
    have hgood_new : ∀ x ∈ (c :: l).take 50, goodRecord x = true := by
      intro x hx
      rcases List.mem_cons.mp (List.mem_of_mem_take hx) with rfl | hxl
      · exact hgoodcs x (List.mem_cons_self _ _)
      · exact hgoodl x hxl
    have hsave : saveConsultation enc st c = .ok (storeSet st CONSULTATIONS_KEY
        (collectionBlob enc ((c :: l).take 50))) := by
      have hs := saveConsultation_spec enc st c (by
        rw [hget]
        exact serializableListB_of_all _
          (fun x hx => goodRecord_serializable (hgood_new x hx)))
      rw [hget] at hs
      exact hs
    have hget1 : getConsultations enc (storeSet st CONSULTATIONS_KEY
        (collectionBlob enc ((c :: l).take 50))) = (c :: l).take 50 :=
      getConsultations_storeSet_blob enc st _ hgood_new
    obtain ⟨st', hfold, hget'⟩ := ih _ ((c :: l).take 50) hget1
      (List.length_take_le _ _) hgood_new
      (fun x hx => hgoodcs x (List.mem_cons_of_mem _ hx))
    refine ⟨st', ?_, ?_⟩
    · show saveConsultations enc (c :: cs) st = .ok st'
      unfold saveConsultations
      rw [List.foldlM_cons, hsave]
      exact hfold
    · rw [hget', take_append_take, List.reverse_cons, List.append_assoc]
      rfl

theorem saveDrugSearches_invariant :
    ∀ (qs : List String) (st : Store) (l : List String),
      qs.Pairwise (fun a b => a.jsToLower ≠ b.jsToLower) →
      (∀ x ∈ l, ∀ q ∈ qs, x.jsToLower ≠ q.jsToLower) →
      getDrugHistory st = .ok (.arr (l.map JVal.str)) →
      l.length ≤ 20 →
      ∃ st', saveDrugSearches qs st = .ok st' ∧
        getDrugHistory st' = .ok (.arr (((qs.reverse ++ l).take 20).map JVal.str)) := by
  intro qs
  induction qs with
  | nil =>
    intro st l _ _ hget hlen
    refine ⟨st, rfl, ?_⟩
    rw [List.reverse_nil, List.nil_append, List.take_of_length_le hlen, hget]
  | cons q qs ih =>
    intro st l hpw hdist hget hlen
    have hfilter : l.filter (fun d => d.jsToLower ≠ q.jsToLower) = l :=
      List.filter_eq_self.mpr (fun x hx => by
        simpa using hdist x hx q (List.mem_cons_self _ _))
    have hsave : saveDrugSearch st q = .ok (storeSet st DRUG_HISTORY_KEY
        (.json (.arr (((q :: l).take 20).map JVal.str)))) := by
      have hs := saveDrugSearch_spec st l q hget
      rw [hfilter] at hs
      exact hs
    have hget1 : getDrugHistory (storeSet st DRUG_HISTORY_KEY
        (.json (.arr (((q :: l).take 20).map JVal.str)))) =
        .ok (.arr (((q :: l).take 20).map JVal.str)) :=
      getDrugHistory_storeSet st _
    have hpw' : qs.Pairwise (fun a b => a.jsToLower ≠ b.jsToLower) :=
      (List.pairwise_cons.mp hpw).2
    have hdist1 : ∀ x ∈ (q :: l).take 20, ∀ q' ∈ qs, x.jsToLower ≠ q'.jsToLower := by
      intro x hx q' hq'
      rcases List.mem_cons.mp (List.mem_of_mem_take hx) with rfl | hxl
      · exact (List.pairwise_cons.mp hpw).1 q' hq'
      · exact hdist x hxl q' (List.mem_cons_of_mem _ hq')
    obtain ⟨st', hfold, hget'⟩ := ih _ ((q :: l).take 20) hpw' hdist1 hget1
      (List.length_take_le _ _)
    refine ⟨st', ?_, ?_⟩
    · show saveDrugSearches (q :: qs) st = .ok st'
      unfold saveDrugSearches
      rw [List.foldlM_cons, hsave]
      exact hfold
    · rw [hget', take_append_take, List.reverse_cons, List.append_assoc]
      rfl

theorem saveConsultation_fails (enc : Bool) (st : Store) (c : JVal)
    (hser : serializableListB ((c :: getConsultations enc st).take 50) = false) :
    saveConsultation enc st c = .error .typeError := by
  have hserB : serializableB (.arr ((c :: getConsultations enc st).take 50)) = false := hser
  have hstr : stringifyE (.arr ((c :: getConsultations enc st).take 50)) =
      .error .typeError := by
    unfold stringifyE
    rw [if_neg (fun hx => by rw [hserB] at hx; cases hx)]
  cases enc with
  | false =>
    show (match stringifyE (.arr ((c :: getConsultations false st).take 50)) with
      | .ok s => Except.ok (storeSet st CONSULTATIONS_KEY s)
      | .error e => .error e) = _
    rw [hstr]
  | true =>
    have henc : encryptData (.arr ((c :: getConsultations true st).take 50))
        DEFAULT_KEY = .error .typeError := by
      unfold encryptData
      rw [hstr]
    show (match encryptData (.arr ((c :: getConsultations true st).take 50))
        DEFAULT_KEY with
      | .ok encrypted => Except.ok (storeSet st CONSULTATIONS_KEY encrypted)
      | .error e => .error e) = _
    rw [henc]

theorem getConsultations_blob_length (enc : Bool) (st : Store) (T : List JVal) :
    (getConsultations enc (storeSet st CONSULTATIONS_KEY
      (collectionBlob enc T))).length ≤ T.length := by
  unfold getConsultations
  rw [storeGet_storeSet_self]
  show (if (collectionBlob enc T).isFalsy then ([] : List JVal)
    else match getConsultationsE enc (collectionBlob enc T) with
      | .ok cs => cs
      | .error _ => []).length ≤ T.length
  simp only [collectionBlob_not_falsy, Bool.false_eq_true, if_false]
  rw [getConsultationsE_blob]
  cases hm : jsMapListE reconstituteTimestampE (jsonImageList T) with
  | ok ys =>
    have h1 := jsMapListE_length hm
    have h2 := jsonImageList_length T
    simp only []
    omega
  | error e => simp

theorem getConsultations_length_after_save (enc : Bool) (st : Store) (c : JVal)
    (st' : Store) (h : saveConsultation enc st c = .ok st') :
    (getConsultations enc st').length ≤ 50 := by
  cases hser : serializableListB ((c :: getConsultations enc st).take 50) with
  | false =>
    rw [saveConsultation_fails enc st c hser] at h
    cases h
  | true =>
    rw [saveConsultation_spec enc st c hser] at h
    cases h
    calc (getConsultations enc (storeSet st CONSULTATIONS_KEY
          (collectionBlob enc ((c :: getConsultations enc st).take 50)))).length
        ≤ ((c :: getConsultations enc st).take 50).length :=
          getConsultations_blob_length enc st _
      _ ≤ 50 := List.length_take_le _ _

theorem saveChatHistory_fails (enc : Bool) (st : Store) (module : String)
    (msgs : List JVal)
    (hser : serializableListB (msgs.drop (msgs.length - 50)) = false) :
    saveChatHistory enc st module msgs = .error .typeError := by
  have hserB : serializableB (.arr (msgs.drop (msgs.length - 50))) = false := hser
  have hstr : stringifyE (.arr (msgs.drop (msgs.length - 50))) =
      .error .typeError := by
    unfold stringifyE
    rw [if_neg (fun hx => by rw [hserB] at hx; cases hx)]
  cases enc with
  | false =>
    show (match stringifyE (.arr (msgs.drop (msgs.length - 50))) with
      | .ok s => Except.ok (storeSet st (chatKey module) s)
      | .error e => .error e) = _
    rw [hstr]
  | true =>
    have henc : encryptData (.arr (msgs.drop (msgs.length - 50)))
        DEFAULT_KEY = .error .typeError := by
      unfold encryptData
      rw [hstr]
    show (match encryptData (.arr (msgs.drop (msgs.length - 50))) DEFAULT_KEY with
      | .ok encrypted => Except.ok (storeSet st (chatKey module) encrypted)
      | .error e => .error e) = _
    rw [henc]

theorem getChatHistory_blob_length (enc : Bool) (st : Store) (module : String)
    (T : List JVal) :
    (getChatHistory enc (storeSet st (chatKey module)
      (collectionBlob enc T)) module).length ≤ T.length := by
  unfold getChatHistory
  rw [storeGet_storeSet_self]
  show (if (collectionBlob enc T).isFalsy then ([] : List JVal)
    else match getChatHistoryE enc (collectionBlob enc T) with
      | .ok msgs => msgs
      | .error _ => []).length ≤ T.length
  simp only [collectionBlob_not_falsy, Bool.false_eq_true, if_false]
  rw [getChatHistoryE_eq, getConsultationsE_blob]
  cases hm : jsMapListE reconstituteTimestampE (jsonImageList T) with
  | ok ys =>
    have h1 := jsMapListE_length hm
    have h2 := jsonImageList_length T
    simp only []
    omega
  | error e => simp

theorem getChatHistory_length_after_save (enc : Bool) (st : Store)
    (module : String) (msgs : List JVal) (st' : Store)
    (h : saveChatHistory enc st module msgs = .ok st') :
    (getChatHistory enc st' module).length ≤ 50 := by
  cases hser : serializableListB (msgs.drop (msgs.length - 50)) with
  | false =>
    rw [saveChatHistory_fails enc st module msgs hser] at h
    cases h
  | true =>
    rw [saveChatHistory_spec enc st module msgs hser] at h
    cases h
    calc (getChatHistory enc (storeSet st (chatKey module)
          (collectionBlob enc (msgs.drop (msgs.length - 50)))) module).length
        ≤ (msgs.drop (msgs.length - 50)).length :=
          getChatHistory_blob_length enc st module _
      _ ≤ 50 := by rw [List.length_drop]; omega

theorem saveDrugSearch_result (st : Store) (q : String) :
    (∃ e, saveDrugSearch st q = .error e) ∨
    ∃ history : List String, saveDrugSearch st q = .ok (storeSet st
      DRUG_HISTORY_KEY (.json (.arr (((q :: history.filter
        (fun d => d.jsToLower ≠ q.jsToLower)).take 20).map JVal.str)))) := by
  cases hg : getDrugHistory st with
  | error e => exact .inl ⟨e, by unfold saveDrugSearch; rw [hg]⟩
  | ok v =>
    cases v with
    | arr elems =>
      have hred : saveDrugSearch st q = (match asStringList elems with
          | .error e => Except.error e
          | .ok history =>
            match stringifyE (.arr (((q :: history.filter
                (fun d => d.jsToLower ≠ q.jsToLower)).take 20).map JVal.str)) with
            | .ok s => Except.ok (storeSet st DRUG_HISTORY_KEY s)
            | .error e => .error e) := by
        unfold saveDrugSearch
        rw [hg]
      cases has : asStringList elems with
      | error e => exact .inl ⟨e, by rw [hred, has]⟩
      | ok history =>
        refine .inr ⟨history, ?_⟩
        rw [hred, has]
        show (match stringifyE (.arr (((q :: history.filter
            (fun d => d.jsToLower ≠ q.jsToLower)).take 20).map JVal.str)) with
          | .ok s => Except.ok (storeSet st DRUG_HISTORY_KEY s)
          | .error e => .error e) = _
        rw [stringifyE_strs]
    | null => exact .inl ⟨.typeError, by unfold saveDrugSearch; rw [hg]⟩
    | bool b => exact .inl ⟨.typeError, by unfold saveDrugSearch; rw [hg]⟩
    | num n => exact .inl ⟨.typeError, by unfold saveDrugSearch; rw [hg]⟩
    | bigint n => exact .inl ⟨.typeError, by unfold saveDrugSearch; rw [hg]⟩
    | str s => exact .inl ⟨.typeError, by unfold saveDrugSearch; rw [hg]⟩
    | date ms => exact .inl ⟨.typeError, by unfold saveDrugSearch; rw [hg]⟩
    | obj fs => exact .inl ⟨.typeError, by unfold saveDrugSearch; rw [hg]⟩

theorem saveDrugSearch_ok_bound (st : Store) (q : String) (st' : Store)
    (h : saveDrugSearch st q = .ok st') :
    ∃ trimmed : List String, trimmed.length ≤ 20 ∧
      getDrugHistory st' = .ok (.arr (trimmed.map JVal.str)) := by
  rcases saveDrugSearch_result st q with ⟨e, he⟩ | ⟨history, hok⟩
  · rw [he] at h
    cases h
  · rw [hok] at h
    cases h
    exact ⟨_, List.length_take_le _ _, getDrugHistory_storeSet st _⟩

/- ### Claim C4: bounded collections -/

/-- C4: every bounded collection kind keeps exactly its capacity:
* Consultations (capacity 50, newest-first): after saving the records
  `cs` in order into an empty store, `getConsultations` returns
  `cs.reverse.take 50` — the most recent 50, newest first — and exactly
  50 of them once more than 50 were saved;
* ChatTranscript (capacity 50 per module, tail retained): saving a
  transcript stores its last 50 messages;
* SearchHistory (capacity 20): saving the (case-insensitively distinct)
  queries `qs` in order leaves the most recent 20, newest first;
* capacity is enforced on every write — after any successful save the
  readable collection never exceeds its capacity, whatever the prior
  store — and never on read: a stored blob holding an arbitrarily long
  list is returned whole. -/

theorem C4_collection_bounds (enc : Bool) :
    (∀ cs : List JVal, (∀ c ∈ cs, goodRecord c = true) →
      ∃ st', saveConsultations enc cs [] = .ok st' ∧
        getConsultations enc st' = cs.reverse.take 50 ∧
        (50 ≤ cs.length → (getConsultations enc st').length = 50)) ∧
    (∀ (st : Store) (module : String) (msgs : List JVal),
      (∀ m ∈ msgs, goodRecord m = true) →
      ∃ st', saveChatHistory enc st module msgs = .ok st' ∧
        getChatHistory enc st' module = msgs.drop (msgs.length - 50) ∧
        (50 ≤ msgs.length → (getChatHistory enc st' module).length = 50)) ∧
    (∀ qs : List String, qs.Pairwise (fun a b => a.jsToLower ≠ b.jsToLower) →
      ∃ st', saveDrugSearches qs [] = .ok st' ∧
        getDrugHistory st' = .ok (.arr ((qs.reverse.take 20).map JVal.str)) ∧
        (20 ≤ qs.length → (qs.reverse.take 20).length = 20)) ∧
    (∀ (st : Store) (c : JVal) (st' : Store),
      saveConsultation enc st c = .ok st' →
      (getConsultations enc st').length ≤ 50) ∧
    (∀ (st : Store) (module : String) (msgs : List JVal) (st' : Store),
      saveChatHistory enc st module msgs = .ok st' →
      (getChatHistory enc st' module).length ≤ 50) ∧
    (∀ (st : Store) (q : String) (st' : Store), saveDrugSearch st q = .ok st' →
      ∃ l : List String, getDrugHistory st' = .ok (.arr (l.map JVal.str)) ∧
        l.length ≤ 20) ∧
    (∀ l : List JVal, (∀ x ∈ l, goodRecord x = true) →
      getConsultations enc (storeSet [] CONSULTATIONS_KEY
        (collectionBlob enc l)) = l) := by
  refine ⟨?_, ?_, ?_, ?_, ?_, ?_, ?_⟩
  · intro cs hgood
    obtain ⟨st', h1, h2⟩ := saveConsultations_invariant enc cs [] [] rfl
      (by simp) (by simp) hgood
    rw [List.append_nil] at h2
    refine ⟨st', h1, h2, ?_⟩
    intro hlen
    rw [h2, List.length_take, List.length_reverse]
    omega
  · intro st module msgs hgood
    have hgood' : ∀ x ∈ msgs.drop (msgs.length - 50), goodRecord x = true :=
      fun x hx => hgood x (List.mem_of_mem_drop hx)
    have hser : serializableListB (msgs.drop (msgs.length - 50)) = true :=
      serializableListB_of_all _
        (fun x hx => goodRecord_serializable (hgood' x hx))
    refine ⟨_, saveChatHistory_spec enc st module msgs hser,
      getChatHistory_storeSet_blob enc st module _ hgood', ?_⟩
    intro hlen
    rw [getChatHistory_storeSet_blob enc st module _ hgood', List.length_drop]
    omega
  · intro qs hpw
    obtain ⟨st', h1, h2⟩ := saveDrugSearches_invariant qs [] [] hpw
      (by simp) rfl (by simp)
    rw [List.append_nil] at h2
    refine ⟨st', h1, h2, ?_⟩
    intro hlen
    rw [List.length_take, List.length_reverse]
    omega
  · exact fun st c st' h => getConsultations_length_after_save enc st c st' h
  · exact fun st m msgs st' h => getChatHistory_length_after_save enc st m msgs st' h
  · intro st q st' h
    obtain ⟨l, hl, hget⟩ := saveDrugSearch_ok_bound st q st' h
    exact ⟨l, hget, hl⟩
  · exact fun l hgood => getConsultations_storeSet_blob enc [] l hgood

/-- Witness for `C4_collection_bounds`: two concrete consultations saved
into an empty store come back newest-first, and a concrete
case-insensitively distinct search-history fold comes back trimmed. -/

theorem C4_collection_bounds_witness :
    (∃ st', saveConsultations false
        [.obj [("id", .str "a"), ("timestamp", .date 1)],
         .obj [("id", .str "b"), ("timestamp", .date 2)]] [] = .ok st' ∧
      getConsultations false st' =
        ([.obj [("id", .str "a"), ("timestamp", .date 1)],
          .obj [("id", .str "b"), ("timestamp", .date 2)]] :
            List JVal).reverse.take 50 ∧
      (50 ≤ ([.obj [("id", .str "a"), ("timestamp", .date 1)],
          .obj [("id", .str "b"), ("timestamp", .date 2)]] :
            List JVal).length →
        (getConsultations false st').length = 50)) ∧
    (∃ st', saveDrugSearches ["Aspirin", "Tylenol"] [] = .ok st' ∧
      getDrugHistory st' = .ok (.arr
        ((["Aspirin", "Tylenol"].reverse.take 20).map JVal.str)) ∧
      (20 ≤ (["Aspirin", "Tylenol"] : List String).length →
        ((["Aspirin", "Tylenol"] : List String).reverse.take 20).length = 20)) :=
  ⟨(C4_collection_bounds false).1 _ (by decide),
   (C4_collection_bounds false).2.2.1 _ (by
    refine List.Pairwise.cons ?_ ?_
    · intro b hb
      rcases List.mem_singleton.mp hb with rfl
      decide
    · exact List.pairwise_singleton _ _)⟩

/- ### Claim C7: search-history dedup-on-reinsert -/

/-- C7: saving a query already present in the stored search history under
case-insensitive comparison succeeds and stores the query (in its new
spelling) at the front, with every case-insensitive duplicate removed, so
the length does not increase; and the stored list never exceeds 20
entries. -/

theorem C7_dedup_reinsert (st : Store) (history : List String) (q : String)
    (hblob : storeGet st DRUG_HISTORY_KEY =
      some (.json (.arr (history.map JVal.str))))
    (hmem : ∃ x ∈ history, x.jsToLower = q.jsToLower) :
    ∃ st', saveDrugSearch st q = .ok st' ∧
      getDrugHistory st' = .ok (.arr
        (((q :: history.filter (fun d => d.jsToLower ≠ q.jsToLower)).take
          20).map JVal.str)) ∧
      ((q :: history.filter (fun d => d.jsToLower ≠ q.jsToLower)).take
        20).head? = some q ∧
      ((q :: history.filter (fun d => d.jsToLower ≠ q.jsToLower)).take
        20).length ≤ history.length ∧
      ((q :: history.filter (fun d => d.jsToLower ≠ q.jsToLower)).take
        20).length ≤ 20 := by
  have hget : getDrugHistory st = .ok (.arr (history.map JVal.str)) := by
    unfold getDrugHistory
    rw [hblob]
    rfl
  refine ⟨_, saveDrugSearch_spec st history q hget,
    getDrugHistory_storeSet st _, ?_, ?_, List.length_take_le _ _⟩
  · rw [show (20 : Nat) = 19 + 1 from rfl, List.take_succ_cons]
    rfl
  · have hlt : (history.filter
        (fun d => d.jsToLower ≠ q.jsToLower)).length < history.length := by
      rw [List.length_filter_lt_length_iff_exists]
      obtain ⟨x, hx, hxe⟩ := hmem
      exact ⟨x, hx, by simp [hxe]⟩
    rw [List.length_take, List.length_cons]
    omega

/-- Witness for `C7_dedup_reinsert`: re-saving `"aspirin"` over a stored
history `["Aspirin", "Tylenol"]` keeps the length at 2 and puts the new
spelling in front. -/

theorem C7_dedup_reinsert_witness :
    ∃ st', saveDrugSearch
        [(DRUG_HISTORY_KEY, .json (.arr
          ((["Aspirin", "Tylenol"] : List String).map JVal.str)))]
        "aspirin" = .ok st' ∧
      getDrugHistory st' = .ok (.arr
        ((("aspirin" :: (["Aspirin", "Tylenol"] : List String).filter
          (fun d => d.jsToLower ≠ ("aspirin" : String).jsToLower)).take
          20).map JVal.str)) ∧
      (("aspirin" :: (["Aspirin", "Tylenol"] : List String).filter
        (fun d => d.jsToLower ≠ ("aspirin" : String).jsToLower)).take
        20).head? = some "aspirin" ∧
      (("aspirin" :: (["Aspirin", "Tylenol"] : List String).filter
        (fun d => d.jsToLower ≠ ("aspirin" : String).jsToLower)).take
        20).length ≤ (["Aspirin", "Tylenol"] : List String).length ∧
      (("aspirin" :: (["Aspirin", "Tylenol"] : List String).filter
        (fun d => d.jsToLower ≠ ("aspirin" : String).jsToLower)).take
        20).length ≤ 20 :=
  C7_dedup_reinsert _ ["Aspirin", "Tylenol"] "aspirin" rfl (by decide)

/- ### Claim C6: collection reads on corrupted blobs -/

/-- C6 counterexample: the claim "every collection read, including
`getDrugHistory`, never throws on an undecodable blob" is false:
`getDrugHistory` has no `try`/`catch`, so `JSON.parse` of a malformed
stored blob throws a `SyntaxError` to the caller instead of returning the
empty collection. -/

theorem C6_counterexample :
    getDrugHistory [(DRUG_HISTORY_KEY, .raw "corrupt blob")] =
      .error .parseError ∧
    getDrugHistory [(DRUG_HISTORY_KEY, .raw "corrupt blob")] ≠
      .ok (.arr []) :=
  ⟨rfl, fun h => Except.noConfusion h⟩

/-- C6 amended: `getConsultations` and `getChatHistory` wrap their decode
in `try`/`catch` and return the empty collection whenever the body
throws (and also when the stored blob is a raw non-JSON string, where the
encrypted path's `decryptData(...) || []` fallback yields the empty
array); `getDrugHistory` returns `[]` only when the key is absent or
empty — a malformed stored blob makes its unguarded `JSON.parse` throw. -/

theorem C6_read_error_confinement :
    (∀ (enc : Bool) (st : Store) (data : JsString) (err : JsError),
      storeGet st CONSULTATIONS_KEY = some data →
      getConsultationsE enc data = .error err →
      getConsultations enc st = []) ∧
    (∀ (enc : Bool) (st : Store) (module : String) (data : JsString)
      (err : JsError),
      storeGet st (chatKey module) = some data →
      getChatHistoryE enc data = .error err →
      getChatHistory enc st module = []) ∧
    (∀ enc : Bool,
      getConsultations enc [(CONSULTATIONS_KEY, .raw "corrupt blob")] = []) ∧
    (∀ (enc : Bool) (module : String),
      getChatHistory enc [(chatKey module, .raw "corrupt blob")] module = []) ∧
    getDrugHistory [] = .ok (.arr []) ∧
    getDrugHistory [(DRUG_HISTORY_KEY, .raw "")] = .ok (.arr []) := by
  refine ⟨?_, ?_, ?_, ?_, rfl, rfl⟩
  · intro enc st data err hget herr
    unfold getConsultations
    rw [hget]
    show (if data.isFalsy then ([] : List JVal)
      else match getConsultationsE enc data with
        | .ok cs => cs
        | .error _ => []) = []
    cases hf : data.isFalsy with
    | true => rfl
    | false => rw [if_neg Bool.false_ne_true, herr]
  · intro enc st module data err hget herr
    unfold getChatHistory
    rw [hget]
    show (if data.isFalsy then ([] : List JVal)
      else match getChatHistoryE enc data with
        | .ok msgs => msgs
        | .error _ => []) = []
    cases hf : data.isFalsy with
    | true => rfl
    | false => rw [if_neg Bool.false_ne_true, herr]
  · intro enc
    cases enc <;> rfl
  · intro enc module
    cases enc with
    | true =>
      unfold getChatHistory
      rw [show storeGet [(chatKey module, .raw "corrupt blob")]
        (chatKey module) = some (.raw "corrupt blob") by
          simp [storeGet, List.lookup]]
      rfl
    | false =>
      unfold getChatHistory
      rw [show storeGet [(chatKey module, .raw "corrupt blob")]
        (chatKey module) = some (.raw "corrupt blob") by
          simp [storeGet, List.lookup]]
      rfl

/-- Witness for `C6_read_error_confinement`: a concrete corrupted
ciphertext-shaped blob (wrong-key ciphertext of garbage) whose decode
body fails still reads back as the empty collection. -/

theorem C6_read_error_confinement_witness :
    getConsultations false
      [(CONSULTATIONS_KEY, .cipher "some_key" (.raw "zzz"))] = [] ∧
    getChatHistory true [(chatKey "healthpro", .json (.num 3))]
      "healthpro" = [] :=
  ⟨(C6_read_error_confinement).1 false _ (.cipher "some_key" (.raw "zzz"))
      .parseError rfl rfl,
   (C6_read_error_confinement).2.1 true _ "healthpro" (.json (.num 3))
      .typeError rfl rfl⟩

/- ### Claim C5: import atomicity -/

theorem jsGetProp_of_ne_null {data : JVal} (h : data ≠ .null) (k : String) :
    ∃ o, jsGetProp data k = .ok o := by
  cases data with
  | null => exact absurd rfl h
  | bool b => exact ⟨none, rfl⟩
  | num n => exact ⟨none, rfl⟩
  | bigint n => exact ⟨none, rfl⟩
  | str s => exact ⟨none, rfl⟩
  | date ms => exact ⟨none, rfl⟩
  | arr xs => exact ⟨none, rfl⟩
  | obj fs => exact ⟨fs.lookup k, rfl⟩

/-- C5 counterexample: the claim "a payload whose top-level shape is
invalid leaves every existing record unchanged and returns false" is
false on two counts, at concrete inputs:
* `{"healthProfile": {...}, "consultations": 7}` — `saveHealthProfile`
  runs first and overwrites the stored profile, then
  `(7).forEach` throws, so `importData` returns `false` with the profile
  record already replaced (a partial mutation);
* the JSON text `"5"` — every property access on the number 5 yields
  `undefined`, every guard is skipped, and `importData` returns `true`. -/

theorem C5_counterexample :
    importData false
      [(HEALTH_PROFILE_KEY, .json (.obj [("age", .num 30)]))]
      (.json (.obj [("healthProfile", .obj [("age", .num 99)]),
        ("consultations", .num 7)])) =
      (false, [(HEALTH_PROFILE_KEY, .json (.obj [("age", .num 99)]))]) ∧
    storeGet [(HEALTH_PROFILE_KEY, JsString.json (.obj [("age", .num 99)]))]
        HEALTH_PROFILE_KEY ≠
      storeGet [(HEALTH_PROFILE_KEY, JsString.json (.obj [("age", .num 30)]))]
        HEALTH_PROFILE_KEY ∧
    importData true [] (.json (.num 5)) = (true, []) := by
  refine ⟨rfl, ?_, rfl⟩
  intro h
  simp [storeGet, List.lookup] at h

/-- C5 amended: `importData` does parse the whole payload before any
write, so a payload that fails `JSON.parse` (or parses to JSON `null`,
on which the first property access throws) returns `false` with the
store untouched, and a parsed payload with none of the four recognized
fields truthy returns `true` with the store untouched; but the top-level
shape is never validated beyond that, so a shape-invalid payload can
return `true` (see the counterexample), and writes performed before a
later section throws are kept even though `false` is returned. -/

theorem C5_import_parse_boundary (enc : Bool) (st : Store) (w : JsString) :
    (∀ err, jsonParseE w = .error err → importData enc st w = (false, st)) ∧
    (jsonParseE w = .ok .null → importData enc st w = (false, st)) ∧
    (∀ data, jsonParseE w = .ok data → data ≠ .null →
      (∀ o, jsGetProp data "healthProfile" = .ok o → jsTruthyOpt o = false) →
      (∀ o, jsGetProp data "consultations" = .ok o → jsTruthyOpt o = false) →
      (∀ o, jsGetProp data "drugHistory" = .ok o → jsTruthyOpt o = false) →
      (∀ o, jsGetProp data "language" = .ok o → jsTruthyOpt o = false) →
      importData enc st w = (true, st)) := by
  refine ⟨?_, ?_, ?_⟩
  · intro err herr
    unfold importData
    rw [herr]
  · intro hnull
    unfold importData
    rw [hnull]
    rfl
  · intro data hok hnn h1 h2 h3 h4
    unfold importData
    rw [hok]
    dsimp only
    obtain ⟨o1, ho1⟩ := jsGetProp_of_ne_null hnn "healthProfile"
    obtain ⟨o2, ho2⟩ := jsGetProp_of_ne_null hnn "consultations"
    obtain ⟨o3, ho3⟩ := jsGetProp_of_ne_null hnn "drugHistory"
    obtain ⟨o4, ho4⟩ := jsGetProp_of_ne_null hnn "language"
    rw [ho1]
    dsimp only
    rw [h1 o1 ho1, if_neg Bool.false_ne_true]
    dsimp only
    rw [ho2]
    dsimp only
    rw [h2 o2 ho2, if_neg Bool.false_ne_true]
    dsimp only
    rw [ho3]
    dsimp only
    rw [h3 o3 ho3, if_neg Bool.false_ne_true]
    dsimp only
    rw [ho4]
    dsimp only
    rw [h4 o4 ho4, if_neg Bool.false_ne_true]

/-- Witness for `C5_import_parse_boundary` at concrete inputs: a
non-JSON payload, the payload `null`, and an empty object all leave a
concrete store unchanged. -/

theorem C5_import_parse_boundary_witness :
    importData true [("k", .raw "v")] (.raw "not json") =
      (false, [("k", .raw "v")]) ∧
    importData true [("k", .raw "v")] (.json .null) =
      (false, [("k", .raw "v")]) ∧
    importData true [("k", .raw "v")] (.json (.obj [])) =
      (true, [("k", .raw "v")]) :=
  ⟨(C5_import_parse_boundary true [("k", .raw "v")] (.raw "not json")).1
      .parseError rfl,
   (C5_import_parse_boundary true [("k", .raw "v")] (.json .null)).2.1 rfl,
   (C5_import_parse_boundary true [("k", .raw "v")] (.json (.obj []))).2.2
      (.obj []) rfl (fun h => JVal.noConfusion h)
      (fun o h => by cases h; rfl) (fun o h => by cases h; rfl)
      (fun o h => by cases h; rfl) (fun o h => by cases h; rfl)⟩
